import Mathlib

/-!
Verification development for the folder-organizer engine
(`file_organizer.py`).  The Python source is shallowly embedded:

* paths are lists of path segments (relative to the configured source
  root unless stated otherwise); the textual length of an absolute path
  is recovered from the root's string length plus one separator and the
  segment length per component;
* the filesystem is a finite list of file entries and directory entries;
* timestamps are modelled as (year, month, finer-time) triples ordered
  lexicographically, which is order-isomorphic to the numeric
  `st_ctime` / `st_mtime` values that `datetime.fromtimestamp` converts
  monotonically;
* OS-level outcomes of a `shutil.move` call (success, `PermissionError`,
  `OSError`, other exceptions) are provided by an environment oracle,
  since they depend on the live machine state that the code itself
  re-checks defensively;
* cooperative cancellation is a set-once flag, modelled by the index of
  the first loop check that observes it set.
-/

namespace FolderOrganizer

/-- Decimal digit character for `n` (used for values below ten). -/
def dig (n : Nat) : Char :=
  match n with
  | 0 => '0' | 1 => '1' | 2 => '2' | 3 => '3' | 4 => '4'
  | 5 => '5' | 6 => '6' | 7 => '7' | 8 => '8' | _ => '9'

/-- Numeric value of a decimal digit character. -/
def digVal (c : Char) : Nat :=
  match c with
  | '0' => 0 | '1' => 1 | '2' => 2 | '3' => 3 | '4' => 4
  | '5' => 5 | '6' => 6 | '7' => 7 | '8' => 8 | _ => 9

/-- Little-endian decimal digits, with structural fuel (any fuel above
the value itself yields the digits; see `natDigitsRevGo_congr`). -/
def natDigitsRevGo (fuel : Nat) (n : Nat) : List Char :=
  match fuel with
  | 0 => []
  | fuel + 1 => if n < 10 then [dig n] else dig (n % 10) :: natDigitsRevGo fuel (n / 10)

/-- Little-endian decimal digits of a natural number. -/
def natDigitsRev (n : Nat) : List Char := natDigitsRevGo (n + 1) n

/-- Decimal rendering of a natural number, the semantics of Python
`str(n)` for a non-negative integer. -/
def natToStr (n : Nat) : String := String.mk (natDigitsRev n).reverse

/-- Value of a little-endian digit list (left inverse of `natDigitsRev`). -/
def valLE : List Char → Nat
  | [] => 0
  | c :: rest => digVal c + 10 * valLE rest

/-- Lower-casing of a string (Python `str.lower` on ASCII data). -/
def strLower (s : String) : String := String.mk (s.toList.map Char.toLower)

/-- Python `str.startswith('.')`. -/
def startsWithDot (s : String) : Bool :=
  match s.toList with
  | '.' :: _ => true
  | _ => false

/-- Python `str.endswith(suffix)`. -/
def strEndsWith (s ending : String) : Bool := decide (ending.toList <:+ s.toList)

/-- Python `needle in hay` substring test. -/
def strContainsSub (hay needle : String) : Bool := decide (needle.toList <:+: hay.toList)

/-- Index of the last '.' in a character list (Python `str.rfind('.')`,
with `none` for "not found"). -/
def lastDotPos : List Char → Option Nat
  | [] => none
  | c :: rest =>
    match lastDotPos rest with
    | some i => some (i + 1)
    | none => if c = '.' then some 0 else none

/-- The `(stem, suffix)` decomposition of a file name, following the
`pathlib` rule: the suffix starts at the last dot provided that dot is
neither the first nor the last character of the name. -/
def pySuffixStem (name : String) : String × String :=
  let cs := name.toList
  match lastDotPos cs with
  | some i =>
    if 0 < i ∧ i < cs.length - 1 then (String.mk (cs.take i), String.mk (cs.drop i))
    else (name, "")
  | none => (name, "")

/-- The `pathlib` stem of a file name. -/
def pyStem (name : String) : String := (pySuffixStem name).1

/-- The `pathlib` suffix of a file name. -/
def pySuffix (name : String) : String := (pySuffixStem name).2

/-- Python `str.isdigit` (ASCII digits). -/
def pyIsDigit (s : String) : Bool := !s.toList.isEmpty && s.toList.all Char.isDigit

/-- The `SortMode` enumeration of the source. -/
inductive SortMode
  | BY_TYPE
  | BY_DATE
  | BY_BOTH
deriving DecidableEq

/-- The string value of a `SortMode`, as in the Python enum. -/
def SortMode.value : SortMode → String
  | .BY_TYPE => "type"
  | .BY_DATE => "date"
  | .BY_BOTH => "both"

/-- The `SkipReason` enumeration of the source. -/
inductive SkipReason
  | ALREADY_ORGANIZED
  | PERMISSION_DENIED
  | FILE_IN_USE
  | READ_ONLY
  | SYSTEM_FILE
  | HIDDEN_FILE
  | SYMLINK
  | PATH_TOO_LONG
  | INVALID_DATE
  | MOVE_ERROR
deriving DecidableEq

/-- The string value of a `SkipReason`, as in the Python enum. -/
def SkipReason.value : SkipReason → String
  | .ALREADY_ORGANIZED => "Already in organized structure"
  | .PERMISSION_DENIED => "Permission denied"
  | .FILE_IN_USE => "File is in use"
  | .READ_ONLY => "File is read-only"
  | .SYSTEM_FILE => "System file"
  | .HIDDEN_FILE => "Hidden file (excluded)"
  | .SYMLINK => "Symlink/shortcut (excluded)"
  | .PATH_TOO_LONG => "Destination path too long"
  | .INVALID_DATE => "Invalid date metadata"
  | .MOVE_ERROR => "Error during move"

/-- The `EXTENSION_CATEGORIES` table of the source. -/
def extensionCategories : List (String × String) := [
  (".jpg", "Images"), (".jpeg", "Images"), (".png", "Images"), (".gif", "Images"),
  (".bmp", "Images"), (".webp", "Images"), (".svg", "Images"), (".ico", "Images"),
  (".tiff", "Images"), (".tif", "Images"), (".raw", "Images"), (".heic", "Images"),
  (".heif", "Images"), (".avif", "Images"),
  (".pdf", "Documents"), (".doc", "Documents"), (".docx", "Documents"),
  (".txt", "Documents"), (".xlsx", "Documents"), (".pptx", "Documents"),
  (".xls", "Documents"), (".ppt", "Documents"), (".odt", "Documents"),
  (".rtf", "Documents"), (".csv", "Documents"), (".md", "Documents"),
  (".epub", "Documents"), (".mobi", "Documents"),
  (".mp4", "Videos"), (".avi", "Videos"), (".mov", "Videos"),
  (".mkv", "Videos"), (".wmv", "Videos"), (".flv", "Videos"),
  (".webm", "Videos"), (".m4v", "Videos"), (".mpeg", "Videos"),
  (".mpg", "Videos"), (".3gp", "Videos"),
  (".mp3", "Audio"), (".wav", "Audio"), (".flac", "Audio"), (".aac", "Audio"),
  (".wma", "Audio"), (".ogg", "Audio"), (".m4a", "Audio"), (".opus", "Audio"),
  (".aiff", "Audio"), (".mid", "Audio"), (".midi", "Audio"),
  (".zip", "Archives"), (".rar", "Archives"), (".7z", "Archives"),
  (".tar", "Archives"), (".gz", "Archives"), (".bz2", "Archives"),
  (".xz", "Archives"), (".iso", "Archives"), (".dmg", "Archives"),
  (".py", "Code"), (".js", "Code"), (".html", "Code"), (".css", "Code"),
  (".java", "Code"), (".cpp", "Code"), (".c", "Code"), (".h", "Code"),
  (".json", "Code"), (".xml", "Code"), (".sql", "Code"), (".php", "Code"),
  (".rb", "Code"), (".go", "Code"), (".rs", "Code"), (".ts", "Code"),
  (".jsx", "Code"), (".tsx", "Code"), (".vue", "Code"), (".swift", "Code"),
  (".kt", "Code"), (".scala", "Code"), (".sh", "Code"), (".bat", "Code"),
  (".ps1", "Code"), (".yaml", "Code"), (".yml", "Code"), (".toml", "Code"),
  (".exe", "Executables"), (".msi", "Executables"), (".app", "Executables"),
  (".deb", "Executables"), (".rpm", "Executables"), (".apk", "Executables"),
  (".ttf", "Fonts"), (".otf", "Fonts"), (".woff", "Fonts"), (".woff2", "Fonts"),
  (".eot", "Fonts")]

/-- The `COMPOUND_EXTENSIONS` table of the source, in insertion order. -/
def compoundExtensions : List (String × String) := [
  (".tar.gz", "Archives"),
  (".tar.bz2", "Archives"),
  (".tar.xz", "Archives"),
  (".tar.zst", "Archives")]

/-- The `MONTH_NAMES` table of the source. -/
def monthFolderName (m : Nat) : String :=
  match m with
  | 1 => "01-January" | 2 => "02-February" | 3 => "03-March" | 4 => "04-April"
  | 5 => "05-May" | 6 => "06-June" | 7 => "07-July" | 8 => "08-August"
  | 9 => "09-September" | 10 => "10-October" | 11 => "11-November" | 12 => "12-December"
  | _ => ""

/-- The values of `MONTH_NAMES` (`MONTH_NAMES.values()`). -/
def monthFolderNames : List String :=
  ["01-January", "02-February", "03-March", "04-April", "05-May", "06-June",
   "07-July", "08-August", "09-September", "10-October", "11-November", "12-December"]

/-- The set `set(EXTENSION_CATEGORIES.values()) | {'Other', 'No Extension'}`
used for structural checks (membership-equivalent list). -/
def validCategories : List String :=
  extensionCategories.map Prod.snd ++ ["Other", "No Extension"]

/-- The `MAX_PATH_LENGTH` constant of the source. -/
def maxPathLength : Nat := 260

/-- The `FileOrganizer.check_path_length` test at string level:
`len(str(dest_path)) <= MAX_PATH_LENGTH`. -/
def check_path_length (destPath : String) : Bool := decide (destPath.length ≤ maxPathLength)

/-- The `FileOrganizer.get_category` classifier, acting on a file name
(the only part of the path it consults). -/
def getCategory (name : String) : String :=
  match compoundExtensions.find? (fun p => strEndsWith (strLower name) p.1) with
  | some p => p.2
  | none =>
    let ext := strLower (pySuffix name)
    if ext = "" then "No Extension"
    else
      match extensionCategories.find? (fun p => p.1 = ext) with
      | some p => p.2
      | none => "Other"

/-- A point in time: `(year, month, finer)` ordered lexicographically.
`datetime.fromtimestamp` is monotone, so comparing raw `st_ctime` and
`st_mtime` values and then reading the year and month of the resulting
`datetime` is faithfully represented by this ordering. -/
structure Timestamp where
  year : Nat
  month : Nat
  finer : Nat
deriving DecidableEq

/-- Ordering test on timestamps (`x <= y` on the underlying numeric time). -/
def tsLe (a b : Timestamp) : Bool :=
  if a.year < b.year then true
  else if b.year < a.year then false
  else if a.month < b.month then true
  else if b.month < a.month then false
  else decide (a.finer ≤ b.finer)

/-- Python `min(ctime, mtime)` (returns the first argument on ties). -/
def tsMin (a b : Timestamp) : Timestamp := if tsLe a b then a else b

/-- The `FileOrganizer.get_file_date` heuristic: earlier of the creation
and modification timestamps, a retry with the modification time alone if
the candidate year is out of range, `none` if still out of range. -/
def getFileDate (nowYear : Nat) (ctime mtime : Timestamp) : Option Timestamp :=
  let dt := tsMin ctime mtime
  if dt.year < 1980 ∨ nowYear + 1 < dt.year then
    if mtime.year < 1980 ∨ nowYear + 1 < mtime.year then none
    else some mtime
  else some dt

/-- The `FileOrganizer.get_folder_date` heuristic: like `get_file_date`
but with no modification-time fallback. -/
def getFolderDate (nowYear : Nat) (ctime mtime : Timestamp) : Option Timestamp :=
  let dt := tsMin ctime mtime
  if dt.year < 1980 ∨ nowYear + 1 < dt.year then none
  else some dt

/-- Textual length of the absolute path whose root renders as a string
of length `rootLen` and whose remaining segments are `parts`: each
segment contributes one separator plus its own characters. -/
def pathStrLen (rootLen : Nat) (parts : List String) : Nat :=
  rootLen + (parts.map (fun p => 1 + p.length)).sum

/-- The `check_path_length` test for a destination given by root-relative
`parts`. -/
def checkPathLengthParts (rootLen : Nat) (parts : List String) : Bool :=
  decide (pathStrLen rootLen parts ≤ maxPathLength)

/-- Root-relative destination segments computed by
`FileOrganizer.get_destination_path` for a file called `name` with
organizing date `date` (`none` when the date is invalid). -/
def destinationParts (mode : SortMode) (date : Option Timestamp) (name : String) :
    List String :=
  let category := getCategory name
  let year := match date with
    | some d => natToStr d.year
    | none => "Unknown"
  let month := match date with
    | some d => monthFolderName d.month
    | none => "Unknown"
  match mode with
  | .BY_TYPE => [category, name]
  | .BY_DATE => [year, month, name]
  | .BY_BOTH => [category, year, month, name]

/-- The absolute path returned by `get_destination_path`:
`source_folder / ...` rendered as root segments followed by the
computed relative segments. -/
def getDestinationPath (root : List String) (mode : SortMode) (date : Option Timestamp)
    (name : String) : List String :=
  root ++ destinationParts mode date name

/-- Root-relative destination segments computed by
`FileOrganizer.get_folder_destination` (By Date layout only). -/
def folderDestinationParts (date : Option Timestamp) (name : String) : List String :=
  let year := match date with
    | some d => natToStr d.year
    | none => "Unknown"
  let month := match date with
    | some d => monthFolderName d.month
    | none => "Unknown"
  [year, month, name]

/-- The absolute path returned by `get_folder_destination`. -/
def getFolderDestination (root : List String) (date : Option Timestamp)
    (name : String) : List String :=
  root ++ folderDestinationParts date name

/-- Year-segment acceptance in `is_in_organized_structure`:
`(year.isdigit() and len(year) == 4) or year == "Unknown"`. -/
def yearSegmentOk (s : String) : Bool :=
  (pyIsDigit s && decide (s.length = 4)) || s = "Unknown"

/-- Month-segment acceptance in `is_in_organized_structure`:
`month in MONTH_NAMES.values() or month == "Unknown"`. -/
def monthSegmentOk (s : String) : Bool :=
  monthFolderNames.contains s || s = "Unknown"

/-- The `FileOrganizer.is_in_organized_structure` structural check, on
the path's segments relative to the source root. -/
def isInOrganizedStructure (mode : SortMode) (parts : List String) : Bool :=
  match mode with
  | .BY_TYPE =>
    decide (2 ≤ parts.length) && validCategories.contains (parts.getD 0 "")
  | .BY_DATE =>
    decide (3 ≤ parts.length) && yearSegmentOk (parts.getD 0 "")
      && monthSegmentOk (parts.getD 1 "")
  | .BY_BOTH =>
    decide (4 ≤ parts.length) && validCategories.contains (parts.getD 0 "")
      && yearSegmentOk (parts.getD 1 "") && monthSegmentOk (parts.getD 2 "")

/-- The `FileOrganizer._is_organized_folder` name check for a root-level
directory. -/
def isOrganizedFolderName (name : String) : Bool :=
  validCategories.contains name
    || (pyIsDigit name && decide (name.length = 4))
    || monthFolderNames.contains name
    || name = "Unknown"

/-- The `ScanOptions` dataclass of the source. -/
structure ScanOptions where
  include_hidden : Bool := false
  include_symlinks : Bool := false
  delete_empty_folders : Bool := false
  preserve_folders : Bool := false
  flatten_folders : Bool := false
deriving DecidableEq

/-- A regular file of the modelled tree: its segments relative to the
source root (the last segment is the file name) plus the metadata the
engine consults. -/
structure FileEntry where
  parts : List String
  hiddenAttr : Bool
  symlinkAttr : Bool
  systemAttr : Bool
  locked : Bool
  ctime : Timestamp
  mtime : Timestamp
deriving DecidableEq

/-- A directory of the modelled tree (segments relative to the source
root, plus the stat timestamps `get_folder_date` reads). -/
structure DirEntry where
  parts : List String
  ctime : Timestamp
  mtime : Timestamp
deriving DecidableEq

/-- The modelled filesystem under the source root. -/
structure FS where
  files : List FileEntry
  dirs : List DirEntry
deriving DecidableEq

/-- The name of a file entry (`Path.name`). -/
def FileEntry.name (e : FileEntry) : String := e.parts.getLastD ""

/-- The name of a directory entry (`Path.name`). -/
def DirEntry.name (d : DirEntry) : String := d.parts.getLastD ""

/-- Python `Path.exists()` over the modelled tree (true for files and
directories alike). -/
def pathExists (fs : FS) (p : List String) : Bool :=
  fs.files.any (fun e => e.parts = p) || fs.dirs.any (fun d => d.parts = p)

/-- All proper non-empty ancestor paths of `parts` (the directories that
`mkdir(parents=True)` ensures exist). -/
def ancestors (parts : List String) : List (List String) :=
  (List.range parts.length).filterMap (fun k => if k = 0 then none else some (parts.take k))

/-- Effect of `dest.parent.mkdir(parents=True, exist_ok=True)`: the
parent directory and its ancestors are added to the tree (with fresh
stat times `t`) unless already present. -/
def mkdirParents (fs : FS) (parent : List String) (t : Timestamp) : FS :=
  let missing := (ancestors parent ++ if parent = [] then [] else [parent]).filter
    (fun q => ¬ pathExists fs q)
  { fs with dirs := fs.dirs ++ (missing.dedup.map (fun q => ⟨q, t, t⟩)) }

/-- Effect of a successful `shutil.move(src, dst)` on a regular file:
the entry at `src` is re-addressed to `dst`. -/
def moveFile (fs : FS) (src dst : List String) : FS :=
  { fs with files := fs.files.map (fun e => if e.parts = src then { e with parts := dst } else e) }

/-- Effect of a successful `shutil.move` of a whole directory `src` to
`dst`: the directory, its subdirectories and all files below it are
re-addressed below `dst`. -/
def moveDirTree (fs : FS) (src dst : List String) : FS :=
  { files := fs.files.map (fun e =>
      if src <+: e.parts then { e with parts := dst ++ e.parts.drop src.length } else e),
    dirs := fs.dirs.map (fun d =>
      if src <+: d.parts then { d with parts := dst ++ d.parts.drop src.length } else d) }

/-- One candidate name of the collision loop in
`get_unique_destination`: `f"{stem}_{counter}{suffix}"`. -/
def uniqueName (stem suffix : String) (counter : Nat) : String :=
  stem ++ "_" ++ natToStr counter ++ suffix

/-- The collision loop of `get_unique_destination`: try
`name_1`, `name_2`, … in order; raise `RuntimeError` ("Too many
duplicate files") once the counter passes 10000.  The loop's `counter`
and the structural `fuel` are linked by `fuel = 10000 - counter`, so the
fuel-0 branch is exactly the `counter > 10000` exit of the source. -/
def uniqueLoop (fs : FS) (parent : List String) (stem suffix : String) :
    Nat → Nat → Except String (List String)
  | counter, fuel =>
    let newPath := parent ++ [uniqueName stem suffix counter]
    if ¬ pathExists fs newPath then .ok newPath
    else
      match fuel with
      | 0 => .error "Too many duplicate files"
      | fuel + 1 => uniqueLoop fs parent stem suffix (counter + 1) fuel

/-- The `FileOrganizer.get_unique_destination` collision resolver: the
candidate itself if it does not exist, otherwise the first free
numbered variant; `Except.error` models the `RuntimeError` raised past
10000 attempts. -/
def getUniqueDestination (fs : FS) (dest : List String) : Except String (List String) :=
  if ¬ pathExists fs dest then .ok dest
  else
    let name := dest.getLastD ""
    let stem := pyStem name
    let suffix := pySuffix name
    uniqueLoop fs dest.dropLast stem suffix 1 9999

/-- Python `is_symlink_or_shortcut`. -/
def isSymlinkOrShortcut (e : FileEntry) : Bool :=
  e.symlinkAttr || strLower (pySuffix e.name) = ".lnk"

/-- Python `is_hidden_file` (leading dot or the hidden attribute). -/
def isHiddenFile (e : FileEntry) : Bool :=
  startsWithDot e.name || e.hiddenAttr

/-- Python `is_system_file`. -/
def isSystemFile (e : FileEntry) : Bool := e.systemAttr

/-- Python `is_file_locked`. -/
def isFileLocked (e : FileEntry) : Bool := e.locked

/-- The `FileOrganizer.check_file_accessibility` precedence ladder. -/
def checkFileAccessibility (opts : ScanOptions) (e : FileEntry) (checkLock : Bool) :
    Option SkipReason :=
  if !opts.include_symlinks && isSymlinkOrShortcut e then some .SYMLINK
  else if !opts.include_hidden && isHiddenFile e then some .HIDDEN_FILE
  else if isSystemFile e then some .SYSTEM_FILE
  else if checkLock && isFileLocked e then some .FILE_IN_USE
  else none

/-- The `FileMove` dataclass (paths as root-relative segments). -/
structure FileMove where
  source : List String
  destination : List String
  category : String
  year : Nat
  month : Nat
deriving DecidableEq

/-- The `SkippedFile` dataclass. -/
structure SkippedFile where
  path : List String
  reason : SkipReason
  details : String := ""
deriving DecidableEq

/-- The `FolderMove` dataclass. -/
structure FolderMove where
  source : List String
  destination : List String
  year : Nat
  month : Nat
  file_count : Nat
deriving DecidableEq

/-- The `OrganizeResult` dataclass. -/
structure OrganizeResult where
  moved : Nat := 0
  skipped : Nat := 0
  errors : Nat := 0
  folders_moved : Nat := 0
  error_messages : List String := []
  skipped_files : List SkippedFile := []
  move_log : List (List String × List String) := []
  folder_move_log : List (List String × List String × Nat) := []
  cancelled : Bool := false
  folders_detected : Bool := false
deriving DecidableEq

/-- Scan-time configuration: sort mode, options, the textual length of
the source-root path, and the current year (read from
`datetime.now()` inside `get_file_date`). -/
structure ScanCfg where
  mode : SortMode
  opts : ScanOptions
  rootLen : Nat
  nowYear : Nat
deriving DecidableEq

/-- The `FileOrganizer._get_root_folders` selection: immediate
subdirectories of the root that do not look like organized folders. -/
def rootFolders (fs : FS) : List DirEntry :=
  fs.dirs.filter (fun d => decide (d.parts.length = 1) && !isOrganizedFolderName d.name)

/-- The `FileOrganizer._count_files_in_folder` recursive count. -/
def countFilesUnder (fs : FS) (dirParts : List String) : Nat :=
  fs.files.countP (fun e => dirParts <+: e.parts)

/-- Folder-move planning inside `scan_files` (only reached when
`preserve_folders` is on and the mode is By Date). -/
def planFolderMoves (cfg : ScanCfg) (fs : FS) (rfs : List DirEntry) : List FolderMove :=
  rfs.filterMap (fun d =>
    let fdate := getFolderDate cfg.nowYear d.ctime d.mtime
    let dest := folderDestinationParts fdate d.name
    if d.parts = dest then none
    else if ¬ checkPathLengthParts cfg.rootLen dest then none
    else some {
      source := d.parts,
      destination := dest,
      year := match fdate with | some t => t.year | none => 0,
      month := match fdate with | some t => t.month | none => 0,
      file_count := countFilesUnder fs d.parts })

/-- Verdict of `scan_files` on one candidate file. -/
inductive ScanVerdict
  | planned (m : FileMove)
  | skipped (s : SkippedFile)
  | ignored
deriving DecidableEq

/-- The per-file body of the scan loop in `scan_files`. -/
def scanStep (cfg : ScanCfg) (e : FileEntry) : ScanVerdict :=
  if isInOrganizedStructure cfg.mode e.parts then .ignored
  else
    match checkFileAccessibility cfg.opts e false with
    | some r => .skipped ⟨e.parts, r, ""⟩
    | none =>
      let fileDate := getFileDate cfg.nowYear e.ctime e.mtime
      let dest := destinationParts cfg.mode fileDate e.name
      if ¬ checkPathLengthParts cfg.rootLen dest then
        .skipped ⟨e.parts, .PATH_TOO_LONG,
          "Path would be " ++ natToStr (pathStrLen cfg.rootLen dest) ++ " chars"⟩
      else if e.parts = dest then .ignored
      else .planned {
        source := e.parts,
        destination := dest,
        category := getCategory e.name,
        year := match fileDate with | some t => t.year | none => 0,
        month := match fileDate with | some t => t.month | none => 0 }

/-- The candidate files a scan iterates over: every file when the scan
is recursive, only root-level files otherwise. -/
def scanCandidates (fs : FS) (recursive : Bool) : List FileEntry :=
  if recursive then fs.files else fs.files.filter (fun e => e.parts.length = 1)

/-- The traversal strategy chosen at the top of `scan_files`:
`(scan_recursive, process_folders)`. -/
def scanStrategy (cfg : ScanCfg) (foldersDetected : Bool) : Bool × Bool :=
  if cfg.opts.flatten_folders then (true, false)
  else if cfg.opts.preserve_folders && cfg.mode = SortMode.BY_DATE then (false, true)
  else if foldersDetected && cfg.mode ≠ SortMode.BY_DATE then (false, false)
  else (true, false)

/-- The `FileOrganizer.scan_files` scan, returning
`(planned_moves, skipped_files, planned_folder_moves, folders_detected)`. -/
def scanFiles (cfg : ScanCfg) (fs : FS) :
    List FileMove × List SkippedFile × List FolderMove × Bool :=
  let rfs := rootFolders fs
  let foldersDetected := decide (0 < rfs.length)
  let strat := scanStrategy cfg foldersDetected
  let folderMoves := if strat.2 then planFolderMoves cfg fs rfs else []
  let candidates := scanCandidates fs strat.1
  let planned := candidates.filterMap (fun e =>
    match scanStep cfg e with
    | .planned m => some m
    | _ => none)
  let skippedList := candidates.filterMap (fun e =>
    match scanStep cfg e with
    | .skipped s => some s
    | _ => none)
  (planned, skippedList, folderMoves, foldersDetected)

/-- Outcome of one `shutil.move` call as classified by the `except`
ladder of the source: success, `PermissionError`, `OSError`, or any
other exception. -/
inductive MoveOutcome
  | ok
  | permError (msg : String)
  | osError (msg : String)
  | otherError (msg : String)
deriving DecidableEq

/-- The in-use test of the `OSError` handler:
`"being used" in str(e).lower() or "in use" in str(e).lower()`. -/
def osErrorInUse (msg : String) : Bool :=
  strContainsSub (strLower msg) "being used" || strContainsSub (strLower msg) "in use"

/-- Environment oracle for one `execute_moves` run.  `cancelFrom` is the
index of the first loop check (counting folder items then file items)
that observes the set-once cancellation flag; `access i` is the
lock-inclusive accessibility re-check of the i-th file move; `outcome i`
and `folderOutcome i` are the OS-level outcomes of the corresponding
`shutil.move` calls; `mkdirTime` is the stat time of directories the
run creates. -/
structure ExecEnv where
  cancelFrom : Option Nat
  access : Nat → Option SkipReason
  outcome : Nat → MoveOutcome
  folderOutcome : Nat → MoveOutcome
  mkdirTime : Timestamp
  rootLen : Nat

/-- Reading of the set-once cancellation flag at the loop check with
global index `s`. -/
def flagAt (cancelFrom : Option Nat) (s : Nat) : Bool :=
  match cancelFrom with
  | none => false
  | some c => decide (c ≤ s)

/-- Merge of a per-item contribution into the result accumulated by the
rest of a batch (the model builds the mutated `OrganizeResult` of the
source by summing per-item contributions in order). -/
def addResult (head rest : OrganizeResult) : OrganizeResult :=
  { moved := head.moved + rest.moved,
    skipped := head.skipped + rest.skipped,
    errors := head.errors + rest.errors,
    folders_moved := head.folders_moved + rest.folders_moved,
    error_messages := head.error_messages ++ rest.error_messages,
    skipped_files := head.skipped_files ++ rest.skipped_files,
    move_log := head.move_log ++ rest.move_log,
    folder_move_log := head.folder_move_log ++ rest.folder_move_log,
    cancelled := head.cancelled || rest.cancelled,
    folders_detected := head.folders_detected || rest.folders_detected }

/-- The folder-collision loop of `execute_moves`: append `_1`, `_2`, … to
the source folder name until a free path is found.  The source raises
once the counter passes 10000, which happens right after `_10000` is
assigned and before it is tested, so only `_1` … `_9999` are ever
checked; the fuel starts at 9998 to give exactly those 9999 probes. -/
def folderDestLoop (fs : FS) (parent : List String) (srcName : String) :
    Nat → Nat → Except String (List String)
  | counter, fuel =>
    let cand := parent ++ [srcName ++ "_" ++ natToStr counter]
    if ¬ pathExists fs cand then .ok cand
    else
      match fuel with
      | 0 => .error "Too many duplicate folders"
      | fuel + 1 => folderDestLoop fs parent srcName (counter + 1) fuel

/-- Final destination of one folder move (`final_dest` in the source). -/
def folderFinalDest (fs : FS) (fm : FolderMove) : Except String (List String) :=
  if pathExists fs fm.destination then
    folderDestLoop fs fm.destination.dropLast (fm.source.getLastD "") 1 9998
  else .ok fm.destination

/-- Result contribution and tree effect of processing one folder move
(the body of the folder loop in `execute_moves`, past the cancellation
check). -/
def folderStep (env : ExecEnv) (fs : FS) (fm : FolderMove) (i : Nat) :
    OrganizeResult × FS :=
  let fs1 := mkdirParents fs fm.destination.dropLast env.mkdirTime
  let folderErr : String → OrganizeResult := fun msg =>
    { errors := 1, error_messages := ["Folder " ++ fm.source.getLastD "" ++ ": " ++ msg] }
  match folderFinalDest fs1 fm with
  | .error msg => (folderErr msg, fs1)
  | .ok finalDest =>
    match env.folderOutcome i with
    | .ok =>
      ({ folders_moved := 1, folder_move_log := [(fm.source, finalDest, fm.file_count)] },
        moveDirTree fs1 fm.source finalDest)
    | .permError msg => (folderErr msg, fs1)
    | .osError msg => (folderErr msg, fs1)
    | .otherError msg => (folderErr msg, fs1)

/-- The folder-move phase of `execute_moves`.  `s` is the global index
of the next loop check. -/
def execFolders (env : ExecEnv) (fs : FS) (fms : List FolderMove) (i s : Nat) :
    OrganizeResult × FS :=
  match fms with
  | [] => ({}, fs)
  | fm :: rest =>
    if flagAt env.cancelFrom s then ({ cancelled := true }, fs)
    else
      let step := folderStep env fs fm i
      let next := execFolders env step.2 rest (i + 1) (s + 1)
      (addResult step.1 next.1, next.2)

/-- Result contribution and tree effect of processing one file move (the
body of the file loop in `execute_moves`, past the cancellation check):
the lock-inclusive accessibility re-check, parent creation, collision
resolution, the final path-length re-check, the move itself, and the
`except` ladder classifying its failures. -/
def fileStep (env : ExecEnv) (fs : FS) (m : FileMove) (i : Nat) :
    OrganizeResult × FS :=
  let fileErr : String → OrganizeResult := fun msg =>
    { errors := 1, error_messages := [m.source.getLastD "" ++ ": " ++ msg] }
  match env.access i with
  | some reason => ({ skipped := 1, skipped_files := [⟨m.source, reason, ""⟩] }, fs)
  | none =>
    let fs1 := mkdirParents fs m.destination.dropLast env.mkdirTime
    match getUniqueDestination fs1 m.destination with
    | .error msg => (fileErr msg, fs1)
    | .ok finalDest =>
      if ¬ checkPathLengthParts env.rootLen finalDest = true then
        ({ skipped := 1, skipped_files := [⟨m.source, .PATH_TOO_LONG, ""⟩] }, fs1)
      else
        match env.outcome i with
        | .ok =>
          ({ moved := 1, move_log := [(m.source, finalDest)] }, moveFile fs1 m.source finalDest)
        | .permError msg =>
          ({ skipped := 1, skipped_files := [⟨m.source, .PERMISSION_DENIED, msg⟩] }, fs1)
        | .osError msg =>
          if osErrorInUse msg then
            ({ skipped := 1, skipped_files := [⟨m.source, .FILE_IN_USE, msg⟩] }, fs1)
          else (fileErr msg, fs1)
        | .otherError msg => (fileErr msg, fs1)

/-- The file-move phase of `execute_moves`.  `i` is the position of the
move in the planned list, `s` the global index of its loop check. -/
def execFiles (env : ExecEnv) (fs : FS) (ms : List FileMove) (i s : Nat) :
    OrganizeResult × FS :=
  match ms with
  | [] => ({}, fs)
  | m :: rest =>
    if flagAt env.cancelFrom s then ({ cancelled := true }, fs)
    else
      let step := fileStep env fs m i
      let next := execFiles env step.2 rest (i + 1) (s + 1)
      (addResult step.1 next.1, next.2)

/-- The `FileOrganizer.execute_moves` batch: folder moves first, then
file moves, sharing one result record and one cancellation flag. -/
def executeMoves (env : ExecEnv) (fs : FS) (fileMoves : List FileMove)
    (folderMoves : List FolderMove) : OrganizeResult × FS :=
  let (rf, fs1) := execFolders env fs folderMoves 0 0
  let (rm, fs2) := execFiles env fs1 fileMoves 0 folderMoves.length
  (addResult rf rm, fs2)

/-- The persisted journal record written by `BackupManager.save_backup`
(the `backup_data` dictionary). -/
structure BackupData where
  timestamp : String
  source_folder : String
  sort_mode : String
  file_count : Nat
  moves : List (List String × List String)
  skipped : List (List String × String × String)
deriving DecidableEq

/-- The `BackupManager.save_backup` journal writer as a pure record
constructor (`timestamp` is the `datetime.now()` reading, rendered). -/
def saveBackup (timestamp sourceFolder : String) (moveLog : List (List String × List String))
    (sortMode : String) (skippedFiles : List SkippedFile) : BackupData :=
  { timestamp := timestamp,
    source_folder := sourceFolder,
    sort_mode := sortMode,
    file_count := moveLog.length,
    moves := moveLog,
    skipped := skippedFiles.map (fun sf => (sf.path, sf.reason.value, sf.details)) }

/-- The journal-saving step of `FileOrganizerApp._organize_worker`: a
backup is written exactly when `result.move_log or result.folder_move_log`
is truthy, and it receives only `result.move_log`. -/
def organizeWorkerBackup (timestamp sourceFolder : String) (sortMode : SortMode)
    (result : OrganizeResult) (allSkipped : List SkippedFile) : Option BackupData :=
  if result.move_log ≠ [] ∨ result.folder_move_log ≠ [] then
    some (saveBackup timestamp sourceFolder result.move_log sortMode.value allSkipped)
  else none

/-- Environment oracle for one `execute_restore` run: the first loop
iteration whose `cancel_check()` returns true, the OS-level outcome of
each `shutil.move`, and the stat time of directories the run creates. -/
structure RestoreEnv where
  cancelFrom : Option Nat
  outcome : Nat → MoveOutcome
  mkdirTime : Timestamp

/-- One candidate name of the restore collision loop:
`f"{stem}_restored_{counter}{suffix}"`. -/
def restoredName (stem suffix : String) (counter : Nat) : String :=
  stem ++ "_restored_" ++ natToStr counter ++ suffix

/-- The (unbounded) collision loop of `execute_restore`, with explicit
fuel; on a finite tree the fuel `fsPathCount fs + 1` used below always
suffices, so the fuel-exhausted branch is never taken. -/
def findRestoredAux (fs : FS) (parent : List String) (stem suffix : String) :
    Nat → Nat → List String
  | counter, 0 => parent ++ [restoredName stem suffix counter]
  | counter, fuel + 1 =>
    let cand := parent ++ [restoredName stem suffix counter]
    if pathExists fs cand then findRestoredAux fs parent stem suffix (counter + 1) fuel
    else cand

/-- Number of path objects in the modelled tree. -/
def fsPathCount (fs : FS) : Nat := fs.files.length + fs.dirs.length

/-- The `final_original` computation of `execute_restore`: the original
path itself when free, else the first free `_restored_N` variant. -/
def findFreeRestored (fs : FS) (original : List String) : List String :=
  if pathExists fs original then
    findRestoredAux fs original.dropLast (pyStem (original.getLastD ""))
      (pySuffix (original.getLastD "")) 1 (fsPathCount fs + 1)
  else original

/-- Result contribution and tree effect of processing one journal pair
(the loop body of `execute_restore`, past the cancellation check): the
destination-existence check, parent re-creation, the `_restored_N`
collision policy, the move back, and the `except` ladder. -/
def restoreStep (env : RestoreEnv) (fs : FS) (original destination : List String)
    (i : Nat) : OrganizeResult × FS :=
  if ¬ pathExists fs destination then
    ({ skipped := 1, skipped_files := [⟨destination, .MOVE_ERROR, "File not found"⟩] }, fs)
  else
    let fs1 := mkdirParents fs original.dropLast env.mkdirTime
    let finalOriginal := findFreeRestored fs1 original
    match env.outcome i with
    | .ok =>
      ({ moved := 1, move_log := [(destination, finalOriginal)] },
        moveFile fs1 destination finalOriginal)
    | .permError msg =>
      ({ skipped := 1, skipped_files := [⟨destination, .PERMISSION_DENIED, msg⟩] }, fs1)
    | .osError msg =>
      ({ errors := 1, error_messages := [destination.getLastD "" ++ ": " ++ msg] }, fs1)
    | .otherError msg =>
      ({ errors := 1, error_messages := [destination.getLastD "" ++ ": " ++ msg] }, fs1)

/-- The loop of `BackupManager.execute_restore` over the journal's move
pairs, starting at iteration index `i`. -/
def execRestore (env : RestoreEnv) (fs : FS) (moves : List (List String × List String))
    (i : Nat) : OrganizeResult × FS :=
  match moves with
  | [] => ({}, fs)
  | (original, destination) :: rest =>
    if flagAt env.cancelFrom i then ({ cancelled := true }, fs)
    else
      let step := restoreStep env fs original destination i
      let next := execRestore env step.2 rest (i + 1)
      (addResult step.1 next.1, next.2)

/-- The `BackupManager.execute_restore` entry point. -/
def executeRestore (env : RestoreEnv) (backup : BackupData) (fs : FS) :
    OrganizeResult × FS :=
  execRestore env fs backup.moves 0

/-- Concrete two-file tree used to exercise the collision resolver. -/
def collisionFS : FS :=
  { files := [
      ⟨["Documents", "report.pdf"], false, false, false, false, ⟨2020, 1, 0⟩, ⟨2020, 1, 0⟩⟩,
      ⟨["Documents", "report_1.pdf"], false, false, false, false, ⟨2020, 1, 0⟩, ⟨2020, 1, 0⟩⟩],
    dirs := [⟨["Documents"], ⟨2020, 1, 0⟩, ⟨2020, 1, 0⟩⟩] }

/-- Concrete one-file tree used to exercise the executor taxonomy. -/
def taxonomyFS : FS :=
  { files := [⟨["a.txt"], false, false, false, false, ⟨2020, 1, 0⟩, ⟨2020, 1, 0⟩⟩],
    dirs := [] }

/-- Concrete planned move used to exercise the executor taxonomy. -/
def taxonomyMove : FileMove :=
  { source := ["a.txt"], destination := ["Documents", "a.txt"],
    category := "Documents", year := 2020, month := 1 }

/-- Concrete executor environment whose move attempt raises an `OSError`
whose message mentions the file being in use. -/
def taxonomyEnv : ExecEnv :=
  { cancelFrom := none,
    access := fun _ => none,
    outcome := fun _ => .osError "The process cannot access the file because it is being used by another process",
    folderOutcome := fun _ => .ok,
    mkdirTime := ⟨2020, 1, 0⟩,
    rootLen := 3 }

/-- Concrete restore environment with no cancellation and successful
moves. -/
def restoreEnvOk : RestoreEnv :=
  { cancelFrom := none, outcome := fun _ => .ok, mkdirTime := ⟨2020, 1, 0⟩ }

/-- The path list of a file-entry list. -/
def partsOf (files : List FileEntry) : List (List String) := files.map FileEntry.parts

/-- The file paths of a tree. -/
def filePaths (fs : FS) : List (List String) := partsOf fs.files

/-- The directory paths of a tree. -/
def dirPaths (fs : FS) : List (List String) := fs.dirs.map DirEntry.parts

/-- The effect of one successful planned move on one file entry. -/
def updEntry (m : FileMove) (e : FileEntry) : FileEntry :=
  if e.parts = m.source then { e with parts := m.destination } else e

/-- The cumulative effect on the file entries of executing a list of
planned moves, each landing exactly at its planned destination. -/
def chainMoves (files : List FileEntry) (ms : List FileMove) : List FileEntry :=
  ms.foldl (fun fl m => fl.map (updEntry m)) files

/-- Cumulative effect of a clean run of planned moves on a single file
entry. -/
def chainUpd (ms : List FileMove) (e : FileEntry) : FileEntry :=
  ms.foldl (fun x m => updEntry m x) e

/-- The effect of one clean restore step (destination back to source) on
one file entry. -/
def backEntry (m : FileMove) (e : FileEntry) : FileEntry :=
  if e.parts = m.destination then { e with parts := m.source } else e

/-- The `OrganizeResult` of a batch whose first `k` file moves all
succeed and which is cancelled before the (k+1)-st when one remains. -/
def cleanRunResult (ms : List FileMove) (k : Nat) : OrganizeResult :=
  { moved := k,
    move_log := (ms.take k).map (fun m => (m.source, m.destination)),
    cancelled := decide (k < ms.length) }

/-- Whether the file-move loop iteration at index `i` goes through: the
accessibility re-check passes and the `shutil.move` call succeeds. -/
def okAt (env : ExecEnv) (i : Nat) : Bool :=
  (env.access i).isNone && decide (env.outcome i = MoveOutcome.ok)

/-- The successfully-moved sublist of a planned batch: the moves whose
loop iterations (indices starting at `i`) pass the accessibility
re-check and whose `shutil.move` succeeds; skipped and errored moves
contribute nothing. -/
def selectedMoves (env : ExecEnv) (ms : List FileMove) (i : Nat) : List FileMove :=
  match ms with
  | [] => []
  | m :: rest =>
    if okAt env i then m :: selectedMoves env rest (i + 1)
    else selectedMoves env rest (i + 1)

/-- A file entry at root level named `nm` (used by concrete runs). -/
def plainFile (nm : String) : FileEntry :=
  ⟨[nm], false, false, false, false, ⟨2020, 1, 0⟩, ⟨2020, 1, 0⟩⟩

/-- A planned move of the root-level file `nm` into `Documents` (used by
concrete runs). -/
def plainMove (nm : String) : FileMove :=
  { source := [nm], destination := ["Documents", nm],
    category := "Documents", year := 2020, month := 1 }

/-- Concrete executor environment in which every operation succeeds
(used by the round-trip runs). -/
def cexEnv : ExecEnv :=
  { cancelFrom := none, access := fun _ => none, outcome := fun _ => .ok,
    folderOutcome := fun _ => .ok, mkdirTime := ⟨2020, 1, 0⟩, rootLen := 3 }

/-- Concrete tree with one root-level folder holding one file (used by
the folder-move round-trip run). -/
def cexFS : FS :=
  { files := [⟨["d", "a.txt"], false, false, false, false, ⟨2020, 1, 0⟩, ⟨2020, 1, 0⟩⟩],
    dirs := [⟨["d"], ⟨2020, 1, 0⟩, ⟨2020, 1, 0⟩⟩] }

/-- Concrete planned folder move of `d` into `2020/01 - January` (used by
the folder-move round-trip run). -/
def cexFolderMove : FolderMove :=
  { source := ["d"], destination := ["2020", "01 - January", "d"],
    year := 2020, month := 1, file_count := 1 }

/-- Concrete one-file tree used by the pure file-move round-trip run. -/
def roundtripFS : FS :=
  { files := [plainFile "a.txt"], dirs := [] }

/-- Concrete mixed tree: a root folder holding one file plus two loose
root files (used by the mixed-batch round-trip run). -/
def mixedFS : FS :=
  { files := [⟨["d", "a.txt"], false, false, false, false, ⟨2020, 1, 0⟩, ⟨2020, 1, 0⟩⟩,
      plainFile "b.txt", plainFile "c.txt"],
    dirs := [⟨["d"], ⟨2020, 1, 0⟩, ⟨2020, 1, 0⟩⟩] }

/-- Concrete executor environment whose second file-move iteration hits a
locked file and is skipped, every other operation succeeding (used by the
mixed-batch round-trip run). -/
def partialEnv : ExecEnv :=
  { cancelFrom := none,
    access := fun i => if i = 1 then some SkipReason.FILE_IN_USE else none,
    outcome := fun _ => .ok, folderOutcome := fun _ => .ok,
    mkdirTime := ⟨2020, 1, 0⟩, rootLen := 3 }

/-- Concrete scan configuration: By Type sorting, default options. -/
def c3Cfg : ScanCfg :=
  { mode := .BY_TYPE, opts := {}, rootLen := 3, nowYear := 2024 }

/-- Number of root-relative segments of a computed file destination for
each sort mode. -/
def modeLen (mode : SortMode) : Nat :=
  match mode with
  | .BY_TYPE => 2
  | .BY_DATE => 3
  | .BY_BOTH => 4

/-! Helper lemmas. -/

theorem digVal_dig (n : Nat) (h : n < 10) : digVal (dig n) = n := by
  interval_cases n <;> rfl

theorem dig_isDigit (n : Nat) : (dig n).isDigit = true := by
  unfold dig
  split <;> rfl

theorem natDigitsRevGo_congr : ∀ (n fuel fuel' : Nat), n < fuel → n < fuel' →
    natDigitsRevGo fuel n = natDigitsRevGo fuel' n := by
  intro n
  induction n using Nat.strong_induction_on with
  | _ n ih =>
    intro fuel fuel' h h'
    cases fuel with
    | zero => omega
    | succ f =>
      cases fuel' with
      | zero => omega
      | succ f' =>
        simp only [natDigitsRevGo]
        by_cases h10 : n < 10
        · rw [if_pos h10, if_pos h10]
        · rw [if_neg h10, if_neg h10]
          have hdiv : n / 10 < n := Nat.div_lt_self (by omega) (by omega)
          rw [ih (n / 10) hdiv f f' (by omega) (by omega)]

theorem natDigitsRev_step (n : Nat) :
    natDigitsRev n = if n < 10 then [dig n] else dig (n % 10) :: natDigitsRev (n / 10) := by
  show natDigitsRevGo (n + 1) n = _
  simp only [natDigitsRevGo]
  by_cases h10 : n < 10
  · rw [if_pos h10, if_pos h10]
  · rw [if_neg h10, if_neg h10]
    have hdiv : n / 10 < n := Nat.div_lt_self (by omega) (by omega)
    rw [natDigitsRevGo_congr (n / 10) n (n / 10 + 1) (by omega) (by omega)]
    rfl

theorem valLE_natDigitsRev (n : Nat) : valLE (natDigitsRev n) = n := by
  induction n using Nat.strong_induction_on with
  | _ n ih =>
    rw [natDigitsRev_step]
    split
    next h => simp [valLE, digVal_dig n h]
    next h =>
      have hd : n / 10 < n := Nat.div_lt_self (by omega) (by omega)
      simp [valLE, ih _ hd, digVal_dig (n % 10) (Nat.mod_lt _ (by omega))]
      omega

theorem natToStr_injective : Function.Injective natToStr := by
  intro m n h
  have h2 : (natDigitsRev m).reverse = (natDigitsRev n).reverse := congrArg String.data h
  have h3 : natDigitsRev m = natDigitsRev n := by
    have := congrArg List.reverse h2
    simpa using this
  have h4 := congrArg valLE h3
  simpa [valLE_natDigitsRev] using h4

theorem natDigitsRev_length (k : Nat) : ∀ n, 10 ^ k ≤ n → n < 10 ^ (k + 1) →
    (natDigitsRev n).length = k + 1 := by
  induction k with
  | zero =>
    intro n h1 h2
    rw [natDigitsRev_step]
    rw [if_pos (by simpa using h2)]
    rfl
  | succ k ih =>
    intro n h1 h2
    have h10 : 10 ≤ 10 ^ (k + 1) := by
      calc 10 = 10 ^ 1 := by norm_num
      _ ≤ 10 ^ (k + 1) := Nat.pow_le_pow_right (by omega) (by omega)
    rw [natDigitsRev_step]
    rw [if_neg (by omega)]
    have hlo : 10 ^ k ≤ n / 10 := by
      rw [Nat.le_div_iff_mul_le (by omega)]
      calc 10 ^ k * 10 = 10 ^ (k + 1) := (pow_succ 10 k).symm
      _ ≤ n := h1
    have hhi : n / 10 < 10 ^ (k + 1) := by
      rw [Nat.div_lt_iff_lt_mul (by omega)]
      calc n < 10 ^ (k + 2) := h2
      _ = 10 ^ (k + 1) * 10 := pow_succ 10 (k + 1)
    simp [ih (n / 10) hlo hhi]

theorem natDigitsRev_all_isDigit (n : Nat) : (natDigitsRev n).all Char.isDigit = true := by
  induction n using Nat.strong_induction_on with
  | _ n ih =>
    rw [natDigitsRev_step]
    split
    · simp [dig_isDigit]
    · simp [dig_isDigit, ih (n / 10) (Nat.div_lt_self (by omega) (by omega))]

theorem natToStr_length (y : Nat) (h1 : 1000 ≤ y) (h2 : y ≤ 9999) :
    (natToStr y).length = 4 := by
  have hlen : (natDigitsRev y).length = 4 :=
    natDigitsRev_length 3 y (by norm_num; omega) (by norm_num; omega)
  show (natDigitsRev y).reverse.length = 4
  simpa using hlen

theorem yearSegmentOk_natToStr (y : Nat) (h1 : 1000 ≤ y) (h2 : y ≤ 9999) :
    yearSegmentOk (natToStr y) = true := by
  have hlen : (natDigitsRev y).length = 4 :=
    natDigitsRev_length 3 y (by norm_num; omega) (by norm_num; omega)
  have hdig := natDigitsRev_all_isDigit y
  unfold yearSegmentOk pyIsDigit
  have htl : (natToStr y).toList = (natDigitsRev y).reverse := rfl
  have hsl : (natToStr y).length = 4 := by
    show (natDigitsRev y).reverse.length = 4
    simpa using hlen
  rw [htl, hsl]
  simp only [List.all_reverse, hdig]
  have hne : (natDigitsRev y).reverse.isEmpty = false := by
    have : (natDigitsRev y).reverse.length = 4 := by simpa using hlen
    cases hrev : (natDigitsRev y).reverse with
    | nil => rw [hrev] at this; simp at this
    | cons a l => rfl
  simp [hne]

theorem monthSegmentOk_monthFolderName (m : Nat) (h1 : 1 ≤ m) (h2 : m ≤ 12) :
    monthSegmentOk (monthFolderName m) = true := by
  interval_cases m <;> rfl

theorem getCategory_mem_validCategories (name : String) :
    getCategory name ∈ validCategories := by
  unfold getCategory
  cases hfind : compoundExtensions.find? (fun p => strEndsWith (strLower name) p.1) with
  | some p =>
    have hp := List.mem_of_find?_eq_some hfind
    have hval : p.2 = "Archives" := by
      simp only [compoundExtensions, List.mem_cons, List.not_mem_nil, or_false] at hp
      rcases hp with h | h | h | h <;> rw [h]
    simp only [hval]
    decide
  | none =>
    simp only []
    by_cases hx : strLower (pySuffix name) = ""
    · simp only [hx, if_pos rfl]
      decide
    · rw [if_neg hx]
      cases hfind2 : extensionCategories.find? (fun p => p.1 = strLower (pySuffix name)) with
      | some p =>
        have hp := List.mem_of_find?_eq_some hfind2
        exact List.mem_append_left _ (List.mem_map_of_mem Prod.snd hp)
      | none =>
        decide

theorem uniqueLoop_eq (fs : FS) (parent : List String) (stem suffix : String)
    (counter fuel : Nat) :
    uniqueLoop fs parent stem suffix counter fuel =
      (if ¬ pathExists fs (parent ++ [uniqueName stem suffix counter]) then
        .ok (parent ++ [uniqueName stem suffix counter])
      else
        match fuel with
        | 0 => .error "Too many duplicate files"
        | fuel + 1 => uniqueLoop fs parent stem suffix (counter + 1) fuel) := by
  cases fuel <;> rfl

theorem uniqueLoop_finds (fs : FS) (parent : List String) (stem suffix : String)
    (k : Nat) (hk : k ≤ 10000)
    (hfree : pathExists fs (parent ++ [uniqueName stem suffix k]) = false) :
    ∀ n counter fuel, counter ≤ k → fuel = 10000 - counter → k - counter = n →
      (∀ j, counter ≤ j → j < k → pathExists fs (parent ++ [uniqueName stem suffix j]) = true) →
      uniqueLoop fs parent stem suffix counter fuel =
        .ok (parent ++ [uniqueName stem suffix k]) := by
  intro n
  induction n with
  | zero =>
    intro counter fuel hck hfuel hn _
    have hek : counter = k := by omega
    subst hek
    rw [uniqueLoop_eq, if_pos (by simp [hfree])]
  | succ n ih =>
    intro counter fuel hck hfuel hn hj
    have htaken : pathExists fs (parent ++ [uniqueName stem suffix counter]) = true :=
      hj counter le_rfl (by omega)
    rw [uniqueLoop_eq, if_neg (by simp [htaken])]
    cases fuel with
    | zero => omega
    | succ f =>
      exact ih (counter + 1) f (by omega) (by omega) (by omega)
        (fun j h1 h2 => hj j (by omega) h2)

theorem uniqueLoop_limit (fs : FS) (parent : List String) (stem suffix : String) :
    ∀ n counter fuel, 1 ≤ counter → counter ≤ 10000 → fuel = 10000 - counter →
      10000 - counter = n →
      (∀ j, counter ≤ j → j ≤ 10000 →
        pathExists fs (parent ++ [uniqueName stem suffix j]) = true) →
      uniqueLoop fs parent stem suffix counter fuel = .error "Too many duplicate files" := by
  intro n
  induction n with
  | zero =>
    intro counter fuel h1 h2 hfuel hn hj
    have hek : counter = 10000 := by omega
    subst hek
    have hf0 : fuel = 0 := by omega
    subst hf0
    rw [uniqueLoop_eq, if_neg (by simp [hj 10000 le_rfl le_rfl])]
  | succ n ih =>
    intro counter fuel h1 h2 hfuel hn hj
    rw [uniqueLoop_eq, if_neg (by simp [hj counter le_rfl (by omega)])]
    cases fuel with
    | zero => omega
    | succ f =>
      exact ih (counter + 1) f (by omega) (by omega) (by omega) (by omega)
        (fun j ha hb => hj j (by omega) hb)

theorem fileStep_counts (env : ExecEnv) (fs : FS) (m : FileMove) (i : Nat) :
    (fileStep env fs m i).1.moved + (fileStep env fs m i).1.skipped
        + (fileStep env fs m i).1.errors = 1 ∧
      (fileStep env fs m i).1.cancelled = false ∧
      (fileStep env fs m i).1.folders_moved = 0 := by
  unfold fileStep
  dsimp only []
  repeat' split
  all_goals simp

theorem folderStep_counts (env : ExecEnv) (fs : FS) (fm : FolderMove) (i : Nat) :
    (folderStep env fs fm i).1.moved + (folderStep env fs fm i).1.skipped
        + (folderStep env fs fm i).1.errors + (folderStep env fs fm i).1.folders_moved = 1 ∧
      (folderStep env fs fm i).1.cancelled = false := by
  unfold folderStep
  dsimp only []
  repeat' split
  all_goals simp

theorem restoreStep_counts (env : RestoreEnv) (fs : FS) (original destination : List String)
    (i : Nat) :
    (restoreStep env fs original destination i).1.moved
        + (restoreStep env fs original destination i).1.skipped
        + (restoreStep env fs original destination i).1.errors = 1 ∧
      (restoreStep env fs original destination i).1.cancelled = false := by
  unfold restoreStep
  dsimp only []
  repeat' split
  all_goals simp

theorem execFiles_accounting (env : ExecEnv) (h : env.cancelFrom = none) :
    ∀ (ms : List FileMove) (fs : FS) (i s : Nat),
      (execFiles env fs ms i s).1.moved + (execFiles env fs ms i s).1.skipped
          + (execFiles env fs ms i s).1.errors = ms.length ∧
        (execFiles env fs ms i s).1.cancelled = false := by
  intro ms
  induction ms with
  | nil => intro fs i s; simp [execFiles]
  | cons m rest ih =>
    intro fs i s
    have hc := fileStep_counts env fs m i
    have hr := ih (fileStep env fs m i).2 (i + 1) (s + 1)
    simp only [execFiles, flagAt, h, Bool.false_eq_true, if_false, addResult]
    refine ⟨?_, ?_⟩
    · simp only [List.length_cons]
      omega
    · simp [hc.2.1, hr.2]

theorem execRestore_accounting (env : RestoreEnv) (h : env.cancelFrom = none) :
    ∀ (moves : List (List String × List String)) (fs : FS) (i : Nat),
      (execRestore env fs moves i).1.moved + (execRestore env fs moves i).1.skipped
          + (execRestore env fs moves i).1.errors = moves.length ∧
        (execRestore env fs moves i).1.cancelled = false := by
  intro moves
  induction moves with
  | nil => intro fs i; simp [execRestore]
  | cons p rest ih =>
    intro fs i
    obtain ⟨original, destination⟩ := p
    have hc := restoreStep_counts env fs original destination i
    have hr := ih (restoreStep env fs original destination i).2 (i + 1)
    simp only [execRestore, flagAt, h, Bool.false_eq_true, if_false, addResult]
    refine ⟨?_, ?_⟩
    · simp only [List.length_cons]
      omega
    · simp [hc.2, hr.2]

theorem dropLast_append_ne_nil (l1 l2 : List String) (h : l2 ≠ []) :
    (l1 ++ l2).dropLast = l1 ++ l2.dropLast := by
  cases l2 with
  | nil => exact absurd rfl h
  | cons b m => exact List.dropLast_append_cons

theorem uniqueLoop_ok_shape (fs : FS) (parent : List String) (stem suffix : String) :
    ∀ fuel counter p, uniqueLoop fs parent stem suffix counter fuel = .ok p →
      ∃ nm, p = parent ++ [nm] := by
  intro fuel
  induction fuel with
  | zero =>
    intro counter p h
    rw [uniqueLoop_eq] at h
    split at h
    · cases h
      exact ⟨_, rfl⟩
    · simp at h
  | succ f ih =>
    intro counter p h
    rw [uniqueLoop_eq] at h
    split at h
    · cases h
      exact ⟨_, rfl⟩
    · exact ih (counter + 1) p h

theorem getUniqueDestination_ok_shape (fs : FS) (dest p : List String)
    (h : getUniqueDestination fs dest = .ok p) :
    p = dest ∨ ∃ nm, p = dest.dropLast ++ [nm] := by
  unfold getUniqueDestination at h
  split at h
  · cases h
    exact Or.inl rfl
  · exact Or.inr (uniqueLoop_ok_shape fs dest.dropLast _ _ 9999 1 p h)

theorem mkdirParents_files (fs : FS) (parent : List String) (t : Timestamp) :
    (mkdirParents fs parent t).files = fs.files := rfl

theorem moveFile_dirs (fs : FS) (s d : List String) : (moveFile fs s d).dirs = fs.dirs := rfl

theorem moveFile_files_upd (fs : FS) (m : FileMove) :
    (moveFile fs m.source m.destination).files = fs.files.map (updEntry m) := rfl

theorem pathExists_iff (fs : FS) (p : List String) :
    pathExists fs p = true ↔ p ∈ filePaths fs ∨ p ∈ dirPaths fs := by
  unfold pathExists filePaths partsOf dirPaths
  simp [List.any_eq_true, List.mem_map]

theorem mkdirParents_dirPaths_mem (fs : FS) (parent : List String) (t : Timestamp)
    (p : List String) (hp : p ∈ dirPaths (mkdirParents fs parent t)) :
    p ∈ dirPaths fs ∨ (1 ≤ p.length ∧ p.length ≤ parent.length) := by
  unfold dirPaths mkdirParents at hp
  simp only [List.map_append, List.mem_append, List.map_map, List.mem_map,
    Function.comp] at hp
  rcases hp with hp | hp
  · exact Or.inl (by simpa [dirPaths, List.mem_map] using hp)
  · right
    obtain ⟨q, hq, hpq⟩ := hp
    have hqp : q = p := hpq
    subst hqp
    have hq2 : q ∈ ancestors parent ++ (if parent = [] then [] else [parent]) :=
      List.mem_of_mem_filter (List.mem_dedup.mp hq)
    rcases List.mem_append.mp hq2 with hq3 | hq3
    · unfold ancestors at hq3
      simp only [List.mem_filterMap, List.mem_range] at hq3
      obtain ⟨j, hj, hj2⟩ := hq3
      rcases Nat.eq_zero_or_pos j with hj0 | hj0
      · rw [hj0] at hj2
        simp at hj2
      · rw [if_neg (by omega)] at hj2
        have hqt : parent.take j = q := Option.some.inj hj2
        have hlen : q.length = j := by
          rw [← hqt]
          simp [List.length_take]
          omega
        omega
    · by_cases hpe : parent = []
      · rw [hpe] at hq3
        simp at hq3
      · rw [if_neg hpe] at hq3
        have hqq : q = parent := List.mem_singleton.mp hq3
        subst hqq
        have : 0 < q.length := List.length_pos.mpr hpe
        omega

theorem mkdirParents_dirPaths_prefix (fs : FS) (parent : List String) (t : Timestamp)
    (p : List String) (hp : p ∈ dirPaths (mkdirParents fs parent t)) :
    p ∈ dirPaths fs ∨ p <+: parent := by
  unfold dirPaths mkdirParents at hp
  simp only [List.map_append, List.mem_append, List.map_map, List.mem_map,
    Function.comp] at hp
  rcases hp with hp | hp
  · exact Or.inl (by simpa [dirPaths, List.mem_map] using hp)
  · right
    obtain ⟨q, hq, hpq⟩ := hp
    have hqp : q = p := hpq
    subst hqp
    have hq2 : q ∈ ancestors parent ++ (if parent = [] then [] else [parent]) :=
      List.mem_of_mem_filter (List.mem_dedup.mp hq)
    rcases List.mem_append.mp hq2 with hq3 | hq3
    · unfold ancestors at hq3
      simp only [List.mem_filterMap, List.mem_range] at hq3
      obtain ⟨j, hj, hj2⟩ := hq3
      rcases Nat.eq_zero_or_pos j with hj0 | hj0
      · rw [hj0] at hj2
        simp at hj2
      · rw [if_neg (by omega)] at hj2
        have hqt : parent.take j = q := Option.some.inj hj2
        rw [← hqt]
        exact List.take_prefix j parent
    · by_cases hpe : parent = []
      · rw [hpe] at hq3
        simp at hq3
      · rw [if_neg hpe] at hq3
        have hqq : q = parent := List.mem_singleton.mp hq3
        subst hqq
        exact List.prefix_rfl

theorem partsOf_map_upd_mem (m : FileMove) (files : List FileEntry) (p : List String)
    (hp : p ∈ partsOf (files.map (updEntry m))) :
    p ∈ partsOf files ∨ p = m.destination := by
  simp only [partsOf, List.map_map, List.mem_map, Function.comp] at hp
  obtain ⟨e, he, hup⟩ := hp
  unfold updEntry at hup
  split at hup
  · exact Or.inr hup.symm
  · exact Or.inl (by simp only [partsOf, List.mem_map]; exact ⟨e, he, hup⟩)

theorem partsOf_map_upd_keep (m : FileMove) (files : List FileEntry) (p : List String)
    (hp : p ∈ partsOf files) (hne : p ≠ m.source) :
    p ∈ partsOf (files.map (updEntry m)) := by
  simp only [partsOf, List.mem_map] at hp
  obtain ⟨e, he, hep⟩ := hp
  simp only [partsOf, List.map_map, List.mem_map, Function.comp]
  refine ⟨e, he, ?_⟩
  unfold updEntry
  rw [if_neg (by rw [hep]; exact hne)]
  exact hep

theorem partsOf_map_upd_moved (m : FileMove) (files : List FileEntry)
    (hp : m.source ∈ partsOf files) :
    m.destination ∈ partsOf (files.map (updEntry m)) := by
  simp only [partsOf, List.mem_map] at hp
  obtain ⟨e, he, hep⟩ := hp
  simp only [partsOf, List.map_map, List.mem_map, Function.comp]
  refine ⟨e, he, ?_⟩
  unfold updEntry
  rw [if_pos hep]

theorem chainMoves_cons (files : List FileEntry) (m : FileMove) (rest : List FileMove) :
    chainMoves files (m :: rest) = chainMoves (files.map (updEntry m)) rest := rfl

theorem chainMoves_untouched (p : List String) :
    ∀ (ms : List FileMove) (files : List FileEntry), p ∈ partsOf files →
      (∀ m ∈ ms, m.source ≠ p) → p ∈ partsOf (chainMoves files ms) := by
  intro ms
  induction ms with
  | nil => intro files hp _; exact hp
  | cons m rest ih =>
    intro files hp hno
    rw [chainMoves_cons]
    exact ih _ (partsOf_map_upd_keep m files p hp (fun h => hno m (by simp) h.symm))
      (fun m' hm' => hno m' (by simp [hm']))

theorem chainMoves_dest_mem :
    ∀ (ms : List FileMove) (files : List FileEntry),
      ms.Pairwise (fun a b => a.source ≠ b.source) →
      (∀ m ∈ ms, m.source ∈ partsOf files) →
      (∀ m ∈ ms, ∀ m' ∈ ms, m.destination ≠ m'.source) →
      ∀ m ∈ ms, m.destination ∈ partsOf (chainMoves files ms) := by
  intro ms
  induction ms with
  | nil => intro files _ _ _ m hm; cases hm
  | cons m0 rest ih =>
    intro files hpw hsrc hds m hm
    rw [chainMoves_cons]
    rcases List.mem_cons.mp hm with rfl | hmr
    · apply chainMoves_untouched _ rest _ (partsOf_map_upd_moved m files (hsrc m (by simp)))
      intro m' hm' h
      exact hds m (by simp) m' (by simp [hm']) h.symm
    · apply ih (files.map (updEntry m0)) (List.Pairwise.of_cons hpw) ?_ ?_ m hmr
      · intro m' hm'
        exact partsOf_map_upd_keep m0 files m'.source (hsrc m' (by simp [hm']))
          (fun h => (List.pairwise_cons.mp hpw).1 m' hm' h.symm)
      · intro a ha b hb
        exact hds a (by simp [ha]) b (by simp [hb])

theorem addResult_empty_left (r : OrganizeResult) : addResult {} r = r := by
  cases r
  simp [addResult]

theorem executeMoves_no_folders (env : ExecEnv) (fs : FS) (ms : List FileMove) :
    executeMoves env fs ms [] = execFiles env fs ms 0 0 := by
  unfold executeMoves
  simp only [execFolders, List.length_nil]
  rw [addResult_empty_left]

theorem execFiles_clean_run (env : ExecEnv) (L : Nat) :
    ∀ (ms : List FileMove) (fs : FS) (i s k : Nat),
      k ≤ ms.length →
      (∀ j, j < k → flagAt env.cancelFrom (s + j) = false) →
      (k < ms.length → flagAt env.cancelFrom (s + k) = true) →
      (∀ j, j < k → env.access (i + j) = none) →
      (∀ j, j < k → env.outcome (i + j) = .ok) →
      ms.Pairwise (fun a b => a.source ≠ b.source) →
      (∀ m ∈ ms, m.source ∈ filePaths fs) →
      (∀ m ∈ ms, m.destination ∉ filePaths fs ∧ m.destination ∉ dirPaths fs) →
      ms.Pairwise (fun a b => a.destination ≠ b.destination) →
      (∀ m ∈ ms, m.destination.length = L) →
      (∀ m ∈ ms, ∀ m' ∈ ms, m.destination ≠ m'.source) →
      (∀ m ∈ ms, checkPathLengthParts env.rootLen m.destination = true) →
      (execFiles env fs ms i s).1 = cleanRunResult ms k ∧
        (execFiles env fs ms i s).2.files = chainMoves fs.files (ms.take k) ∧
        (∀ p ∈ dirPaths (execFiles env fs ms i s).2,
          p ∈ dirPaths fs ∨ (1 ≤ p.length ∧ p.length < L)) := by
  intro ms
  induction ms with
  | nil =>
    intro fs i s k hk _ _ _ _ _ _ _ _ _ _ _
    have hk0 : k = 0 := by simpa using hk
    subst hk0
    refine ⟨?_, rfl, fun p hp => Or.inl hp⟩
    simp [execFiles, cleanRunResult, chainMoves]
  | cons m rest ih =>
    intro fs i s k hk hflagF hflagT haccess houtcome H1 H2 H3 H4 H5 H6 H8
    have hm0 : m ∈ m :: rest := by simp
    cases k with
    | zero =>
      have hflag : flagAt env.cancelFrom s = true := by
        simpa using hflagT (by simp)
      have hrun : execFiles env fs (m :: rest) i s = ({ cancelled := true }, fs) := by
        simp [execFiles, hflag]
      rw [hrun]
      refine ⟨?_, rfl, fun p hp => Or.inl hp⟩
      simp [cleanRunResult]
    | succ k' =>
      have hflag : flagAt env.cancelFrom s = false := by
        simpa using hflagF 0 (by omega)
      have hdroplen : m.destination.dropLast.length = L - 1 := by
        rw [List.length_dropLast, H5 m hm0]
      have hNoExist : pathExists (mkdirParents fs m.destination.dropLast env.mkdirTime)
          m.destination = false := by
        rcases Bool.eq_false_or_eq_true
          (pathExists (mkdirParents fs m.destination.dropLast env.mkdirTime) m.destination)
          with h | h
        · exfalso
          rcases (pathExists_iff _ _).mp h with hf | hd
          · have hfe : (m.destination ∈ filePaths fs) := by
              simpa [filePaths, partsOf, mkdirParents_files] using hf
            exact (H3 m hm0).1 hfe
          · rcases mkdirParents_dirPaths_mem fs m.destination.dropLast env.mkdirTime
              m.destination hd with hd2 | hd2
            · exact (H3 m hm0).2 hd2
            · have := H5 m hm0
              omega
        · exact h
      have hU : getUniqueDestination (mkdirParents fs m.destination.dropLast env.mkdirTime)
          m.destination = .ok m.destination := by
        unfold getUniqueDestination
        rw [if_pos (by simp [hNoExist])]
      have ha : env.access i = none := by simpa using haccess 0 (by omega)
      have ho : env.outcome i = .ok := by simpa using houtcome 0 (by omega)
      have hstep : fileStep env fs m i =
          ({ moved := 1, move_log := [(m.source, m.destination)] },
            moveFile (mkdirParents fs m.destination.dropLast env.mkdirTime)
              m.source m.destination) := by
        simp [fileStep, ha, hU, H8 m hm0, ho]
      have hpwS := List.pairwise_cons.mp H1
      have hpwD := List.pairwise_cons.mp H4
      obtain ⟨ihres, ihfiles, ihdirs⟩ :=
        ih (moveFile (mkdirParents fs m.destination.dropLast env.mkdirTime)
            m.source m.destination) (i + 1) (s + 1) k'
          (by simpa using hk)
          (fun j hj => by
            rw [show s + 1 + j = s + (j + 1) by omega]
            exact hflagF (j + 1) (by omega))
          (fun hlt => by
            rw [show s + 1 + k' = s + (k' + 1) by omega]
            exact hflagT (by simpa using hlt))
          (fun j hj => by
            rw [show i + 1 + j = i + (j + 1) by omega]
            exact haccess (j + 1) (by omega))
          (fun j hj => by
            rw [show i + 1 + j = i + (j + 1) by omega]
            exact houtcome (j + 1) (by omega))
          hpwS.2
          (fun m' hm' => by
            rw [filePaths, moveFile_files_upd]
            exact partsOf_map_upd_keep m _ m'.source
              (by simpa [filePaths, partsOf, mkdirParents_files] using H2 m' (by simp [hm']))
              (fun hcontra => hpwS.1 m' hm' hcontra.symm))
          (fun m' hm' => by
            constructor
            · intro hmem
              rw [filePaths, moveFile_files_upd] at hmem
              rcases partsOf_map_upd_mem m _ m'.destination hmem with h2 | h2
              · exact (H3 m' (by simp [hm'])).1
                  (by simpa [filePaths, partsOf, mkdirParents_files] using h2)
              · exact hpwD.1 m' hm' h2.symm
            · intro hmem
              rw [dirPaths] at hmem
              rw [show (moveFile (mkdirParents fs m.destination.dropLast env.mkdirTime)
                m.source m.destination).dirs
                  = (mkdirParents fs m.destination.dropLast env.mkdirTime).dirs from rfl] at hmem
              rcases mkdirParents_dirPaths_mem fs m.destination.dropLast env.mkdirTime
                m'.destination hmem with h2 | h2
              · exact (H3 m' (by simp [hm'])).2 h2
              · have := H5 m' (by simp [hm'])
                omega)
          hpwD.2
          (fun m' hm' => H5 m' (by simp [hm']))
          (fun a ha' b hb' => H6 a (by simp [ha']) b (by simp [hb']))
          (fun m' hm' => H8 m' (by simp [hm']))
      have hrun : execFiles env fs (m :: rest) i s =
          (addResult (fileStep env fs m i).1
            (execFiles env (fileStep env fs m i).2 rest (i + 1) (s + 1)).1,
            (execFiles env (fileStep env fs m i).2 rest (i + 1) (s + 1)).2) := by
        simp [execFiles, hflag]
      rw [hrun, hstep]
      refine ⟨?_, ?_, ?_⟩
      · rw [ihres]
        have h1 : 1 + k' = k' + 1 := by omega
        have h2 : (decide (k' < rest.length)) = (decide (k' + 1 < rest.length + 1)) := by
          rw [decide_eq_decide]
          omega
        simp [addResult, cleanRunResult, List.take_succ_cons, h1, h2]
      · rw [ihfiles]
        rw [List.take_succ_cons, chainMoves_cons, moveFile_files_upd, mkdirParents_files]
      · intro p hp
        rcases ihdirs p hp with h2 | h2
        · rw [dirPaths, show (moveFile (mkdirParents fs m.destination.dropLast env.mkdirTime)
            m.source m.destination).dirs
              = (mkdirParents fs m.destination.dropLast env.mkdirTime).dirs from rfl] at h2
          rcases mkdirParents_dirPaths_mem fs m.destination.dropLast env.mkdirTime p h2
            with h3 | h3
          · exact Or.inl h3
          · right
            omega
        · exact Or.inr h2

theorem validCategories_contains_getCategory (name : String) :
    validCategories.contains (getCategory name) = true := by
  have h := getCategory_mem_validCategories name
  simpa using h

theorem scanStep_planned_inv (cfg : ScanCfg) (e : FileEntry) (m : FileMove)
    (h : scanStep cfg e = .planned m) :
    m.source = e.parts ∧
      m.destination = destinationParts cfg.mode (getFileDate cfg.nowYear e.ctime e.mtime)
        e.name ∧
      isInOrganizedStructure cfg.mode e.parts = false ∧
      checkFileAccessibility cfg.opts e false = none ∧
      checkPathLengthParts cfg.rootLen m.destination = true ∧
      e.parts ≠ m.destination := by
  unfold scanStep at h
  by_cases h1 : isInOrganizedStructure cfg.mode e.parts = true
  · rw [if_pos h1] at h
    cases h
  · rw [if_neg h1] at h
    cases h2 : checkFileAccessibility cfg.opts e false with
    | some r =>
      rw [h2] at h
      simp at h
    | none =>
      rw [h2] at h
      simp only [] at h
      by_cases h3 : checkPathLengthParts cfg.rootLen
          (destinationParts cfg.mode (getFileDate cfg.nowYear e.ctime e.mtime) e.name) = true
      · rw [if_neg (by simp [h3])] at h
        by_cases h4 : e.parts =
            destinationParts cfg.mode (getFileDate cfg.nowYear e.ctime e.mtime) e.name
        · rw [if_pos h4] at h
          cases h
        · rw [if_neg h4] at h
          cases h
          refine ⟨rfl, rfl, ?_, rfl, h3, h4⟩
          rcases Bool.eq_false_or_eq_true (isInOrganizedStructure cfg.mode e.parts)
            with hb | hb
          · exact absurd hb h1
          · exact hb
      · rw [if_pos (by simp [h3])] at h
        cases h

theorem scan_planned_mem (cfg : ScanCfg) (fs : FS) (m : FileMove)
    (hm : m ∈ (scanFiles cfg fs).1) :
    ∃ e, e ∈ scanCandidates fs
        (scanStrategy cfg (decide (0 < (rootFolders fs).length))).1 ∧
      scanStep cfg e = .planned m := by
  unfold scanFiles at hm
  simp only [List.mem_filterMap] at hm
  obtain ⟨e, he, hpick⟩ := hm
  refine ⟨e, he, ?_⟩
  rcases hstep : scanStep cfg e with m' | s' | _ <;> rw [hstep] at hpick
  · cases hpick
    rfl
  · cases hpick
  · cases hpick

theorem scanCandidates_subset (fs : FS) (b : Bool) :
    ∀ e ∈ scanCandidates fs b, e ∈ fs.files := by
  intro e he
  unfold scanCandidates at he
  split at he
  · exact he
  · exact List.mem_of_mem_filter he

theorem getFileDate_bounds (ny : Nat) (c mt : Timestamp) (d : Timestamp)
    (h : getFileDate ny c mt = some d) :
    1980 ≤ d.year ∧ d.year ≤ ny + 1 ∧ (d = c ∨ d = mt) := by
  unfold getFileDate at h
  simp only [] at h
  have hmin : tsMin c mt = c ∨ tsMin c mt = mt := by
    unfold tsMin
    split
    · exact Or.inl rfl
    · exact Or.inr rfl
  by_cases h1 : ((tsMin c mt).year < 1980 ∨ ny + 1 < (tsMin c mt).year)
  · rw [if_pos h1] at h
    by_cases h2 : (mt.year < 1980 ∨ ny + 1 < mt.year)
    · rw [if_pos h2] at h
      cases h
    · rw [if_neg h2] at h
      have hd := Option.some.inj h
      push_neg at h2
      subst hd
      exact ⟨by omega, by omega, Or.inr rfl⟩
  · rw [if_neg h1] at h
    have hd := Option.some.inj h
    push_neg at h1
    subst hd
    rcases hmin with hm | hm <;> rw [hm] at h1 ⊢
    · exact ⟨by omega, by omega, Or.inl rfl⟩
    · exact ⟨by omega, by omega, Or.inr rfl⟩

theorem destinationParts_length (mode : SortMode) (date : Option Timestamp) (name : String) :
    (destinationParts mode date name).length = modeLen mode := by
  cases mode <;> simp [destinationParts, modeLen]

theorem destinationParts_organized (mode : SortMode) (date : Option Timestamp) (name : String)
    (hdate : date = none ∨ ∃ d, date = some d ∧ 1980 ≤ d.year ∧ d.year ≤ 9999 ∧
      1 ≤ d.month ∧ d.month ≤ 12) :
    isInOrganizedStructure mode (destinationParts mode date name) = true := by
  have hcat := validCategories_contains_getCategory name
  rcases hdate with rfl | ⟨d, rfl, h1, h2, h3, h4⟩
  · cases mode
    · simp [destinationParts, isInOrganizedStructure]
      exact getCategory_mem_validCategories name
    · simp [destinationParts, isInOrganizedStructure]
      exact ⟨by decide, by decide⟩
    · simp [destinationParts, isInOrganizedStructure]
      exact ⟨⟨getCategory_mem_validCategories name, by decide⟩, by decide⟩
  · have hy := yearSegmentOk_natToStr d.year (by omega) (by omega)
    have hm := monthSegmentOk_monthFolderName d.month h3 h4
    cases mode
    · simp [destinationParts, isInOrganizedStructure]
      exact getCategory_mem_validCategories name
    · simp [destinationParts, isInOrganizedStructure, hy, hm]
    · simp [destinationParts, isInOrganizedStructure, hy, hm]
      exact getCategory_mem_validCategories name

theorem isOrganizedFolderName_of_cat (s : String) (h : validCategories.contains s = true) :
    isOrganizedFolderName s = true := by
  simp only [isOrganizedFolderName, Bool.or_eq_true]
  exact Or.inl (Or.inl (Or.inl (by simpa using h)))

theorem isOrganizedFolderName_of_year (s : String) (h : yearSegmentOk s = true) :
    isOrganizedFolderName s = true := by
  simp only [yearSegmentOk, Bool.or_eq_true, Bool.and_eq_true, decide_eq_true_eq] at h
  rcases h with ⟨h1, h2⟩ | h
  · simp [isOrganizedFolderName, h1, h2]
  · simp [isOrganizedFolderName, h]

theorem destinationParts_head_organized (mode : SortMode) (date : Option Timestamp)
    (name : String) (x : String)
    (hdate : date = none ∨ ∃ d, date = some d ∧ 1980 ≤ d.year ∧ d.year ≤ 9999 ∧
      1 ≤ d.month ∧ d.month ≤ 12)
    (hx : [x] <+: (destinationParts mode date name).dropLast) :
    isOrganizedFolderName x = true := by
  have hcat := validCategories_contains_getCategory name
  obtain ⟨t, ht⟩ := hx
  rcases hdate with rfl | ⟨d, rfl, h1, h2, h3, h4⟩
  · cases mode
    · simp only [destinationParts, List.dropLast, List.cons_append, List.nil_append] at ht
      obtain ⟨rfl, -⟩ := List.cons.inj ht
      exact isOrganizedFolderName_of_cat _ hcat
    · simp only [destinationParts, List.dropLast, List.cons_append, List.nil_append] at ht
      obtain ⟨rfl, -⟩ := List.cons.inj ht
      exact isOrganizedFolderName_of_year _ (by decide)
    · simp only [destinationParts, List.dropLast, List.cons_append, List.nil_append] at ht
      obtain ⟨rfl, -⟩ := List.cons.inj ht
      exact isOrganizedFolderName_of_cat _ hcat
  · have hy := yearSegmentOk_natToStr d.year (by omega) (by omega)
    cases mode
    · simp only [destinationParts, List.dropLast, List.cons_append, List.nil_append] at ht
      obtain ⟨rfl, -⟩ := List.cons.inj ht
      exact isOrganizedFolderName_of_cat _ hcat
    · simp only [destinationParts, List.dropLast, List.cons_append, List.nil_append] at ht
      obtain ⟨rfl, -⟩ := List.cons.inj ht
      exact isOrganizedFolderName_of_year _ hy
    · simp only [destinationParts, List.dropLast, List.cons_append, List.nil_append] at ht
      obtain ⟨rfl, -⟩ := List.cons.inj ht
      exact isOrganizedFolderName_of_cat _ hcat

theorem chainMoves_eq_map (ms : List FileMove) :
    ∀ files : List FileEntry, chainMoves files ms = files.map (chainUpd ms) := by
  induction ms with
  | nil =>
    intro files
    show files = files.map (chainUpd [])
    induction files with
    | nil => rfl
    | cons a l ihl =>
      simp only [List.map_cons]
      rw [show chainUpd [] a = a from rfl, ← ihl]
  | cons m rest ih =>
    intro files
    rw [chainMoves_cons, ih, List.map_map]
    rfl

theorem chainUpd_untouched (ms : List FileMove) (e : FileEntry)
    (h : ∀ m ∈ ms, m.source ≠ e.parts) : chainUpd ms e = e := by
  induction ms with
  | nil => rfl
  | cons m rest ih =>
    have h1 : updEntry m e = e := by
      unfold updEntry
      rw [if_neg (fun hc => h m (by simp) hc.symm)]
    show chainUpd rest (updEntry m e) = e
    rw [h1]
    exact ih (fun m' hm' => h m' (by simp [hm']))

theorem chainUpd_moved (ms : List FileMove) (e : FileEntry) (m : FileMove)
    (hm : m ∈ ms) (he : e.parts = m.source)
    (H1 : ms.Pairwise (fun a b => a.source ≠ b.source))
    (H6 : ∀ a ∈ ms, ∀ b ∈ ms, a.destination ≠ b.source) :
    chainUpd ms e = { e with parts := m.destination } := by
  induction ms with
  | nil => cases hm
  | cons m0 rest ih =>
    have hpw := List.pairwise_cons.mp H1
    rcases List.mem_cons.mp hm with rfl | hmr
    · have h1 : updEntry m e = { e with parts := m.destination } := by
        unfold updEntry
        rw [if_pos he]
      show chainUpd rest (updEntry m e) = _
      rw [h1]
      exact chainUpd_untouched rest _ (fun m' hm' hc =>
        H6 m (by simp) m' (by simp [hm']) hc.symm)
    · have h1 : updEntry m0 e = e := by
        unfold updEntry
        rw [if_neg (fun hc => hpw.1 m hmr (by rw [← he, ← hc]))]
      show chainUpd rest (updEntry m0 e) = _
      rw [h1]
      exact ih hmr hpw.2 (fun a ha b hb => H6 a (by simp [ha]) b (by simp [hb]))

theorem chainUpd_parts_cases (ms : List FileMove) :
    ∀ e : FileEntry, (chainUpd ms e).parts = e.parts ∨
      ∃ m ∈ ms, (chainUpd ms e).parts = m.destination := by
  induction ms with
  | nil => intro e; exact Or.inl rfl
  | cons m rest ih =>
    intro e
    have hstep : chainUpd (m :: rest) e = chainUpd rest (updEntry m e) := rfl
    rcases ih (updEntry m e) with h | ⟨m', hm', h⟩
    · by_cases hcase : e.parts = m.source
      · refine Or.inr ⟨m, by simp, ?_⟩
        rw [hstep, h]
        unfold updEntry
        rw [if_pos hcase]
      · refine Or.inl ?_
        rw [hstep, h]
        unfold updEntry
        rw [if_neg hcase]
    · exact Or.inr ⟨m', by simp [hm'], by rw [hstep, h]⟩

theorem setParts_self (e : FileEntry) (p : List String) (h : e.parts = p) :
    ({ e with parts := p } : FileEntry) = e := by
  cases e
  cases h
  rfl

theorem moveFile_files_back (fs : FS) (m : FileMove) :
    (moveFile fs m.destination m.source).files = fs.files.map (backEntry m) := rfl

theorem mkdirParents_dirs_append (fs : FS) (parent : List String) (t : Timestamp) :
    ∃ nd, (mkdirParents fs parent t).dirs = fs.dirs ++ nd ∧
      ∀ d ∈ nd, 1 ≤ d.parts.length ∧ d.parts <+: parent := by
  refine ⟨_, rfl, ?_⟩
  intro d hd
  simp only [List.mem_map] at hd
  obtain ⟨q, hq, hdq⟩ := hd
  have hq2 : q ∈ ancestors parent ++ (if parent = [] then [] else [parent]) :=
    List.mem_of_mem_filter (List.mem_dedup.mp hq)
  have hparts : d.parts = q := by rw [← hdq]
  rw [hparts]
  rcases List.mem_append.mp hq2 with hq3 | hq3
  · unfold ancestors at hq3
    simp only [List.mem_filterMap, List.mem_range] at hq3
    obtain ⟨j, hj, hj2⟩ := hq3
    rcases Nat.eq_zero_or_pos j with hj0 | hj0
    · rw [hj0] at hj2
      simp at hj2
    · rw [if_neg (by omega)] at hj2
      have hqt : parent.take j = q := Option.some.inj hj2
      refine ⟨?_, ?_⟩
      · rw [← hqt]
        simp [List.length_take]
        omega
      · rw [← hqt]
        exact List.take_prefix j parent
  · by_cases hpe : parent = []
    · rw [hpe] at hq3
      simp at hq3
    · rw [if_neg hpe] at hq3
      have hqq : q = parent := List.mem_singleton.mp hq3
      subst hqq
      exact ⟨List.length_pos.mpr hpe, List.prefix_refl q⟩

theorem fileStep_dirs_append (env : ExecEnv) (fs : FS) (m : FileMove) (i : Nat) :
    ∃ nd, (fileStep env fs m i).2.dirs = fs.dirs ++ nd ∧
      ∀ d ∈ nd, 1 ≤ d.parts.length ∧ d.parts <+: m.destination.dropLast := by
  obtain ⟨nd, hnd, hprop⟩ :=
    mkdirParents_dirs_append fs m.destination.dropLast env.mkdirTime
  unfold fileStep
  dsimp only []
  split
  · exact ⟨[], by simp, by simp⟩
  · split
    · exact ⟨nd, hnd, hprop⟩
    · split
      · exact ⟨nd, hnd, hprop⟩
      · split
        · exact ⟨nd, hnd, hprop⟩
        · exact ⟨nd, hnd, hprop⟩
        · split
          · exact ⟨nd, hnd, hprop⟩
          · exact ⟨nd, hnd, hprop⟩
        · exact ⟨nd, hnd, hprop⟩

theorem execFiles_dirs_append (env : ExecEnv) :
    ∀ (ms : List FileMove) (fs : FS) (i s : Nat),
      ∃ nd, (execFiles env fs ms i s).2.dirs = fs.dirs ++ nd ∧
        ∀ d ∈ nd, 1 ≤ d.parts.length ∧ ∃ m ∈ ms, d.parts <+: m.destination.dropLast := by
  intro ms
  induction ms with
  | nil =>
    intro fs i s
    exact ⟨[], by simp [execFiles], by simp⟩
  | cons m rest ih =>
    intro fs i s
    by_cases hflag : flagAt env.cancelFrom s = true
    · exact ⟨[], by simp [execFiles, hflag], by simp⟩
    · obtain ⟨nd0, hnd0, hp0⟩ := fileStep_dirs_append env fs m i
      obtain ⟨nd1, hnd1, hp1⟩ := ih (fileStep env fs m i).2 (i + 1) (s + 1)
      refine ⟨nd0 ++ nd1, ?_, ?_⟩
      · have hrun : (execFiles env fs (m :: rest) i s).2 =
            (execFiles env (fileStep env fs m i).2 rest (i + 1) (s + 1)).2 := by
          simp [execFiles, hflag]
        rw [hrun, hnd1, hnd0, List.append_assoc]
      · intro d hd
        rcases List.mem_append.mp hd with hd | hd
        · obtain ⟨hlen, hpre⟩ := hp0 d hd
          exact ⟨hlen, m, by simp, hpre⟩
        · obtain ⟨hlen, m', hm', hpre⟩ := hp1 d hd
          exact ⟨hlen, m', by simp [hm'], hpre⟩

theorem selectedMoves_sublist (env : ExecEnv) :
    ∀ (ms : List FileMove) (i : Nat), List.Sublist (selectedMoves env ms i) ms := by
  intro ms
  induction ms with
  | nil =>
    intro i
    exact List.Sublist.refl _
  | cons m rest ih =>
    intro i
    unfold selectedMoves
    split
    · exact List.Sublist.cons₂ m (ih (i + 1))
    · exact List.Sublist.cons m (ih (i + 1))

theorem folderStep_move_log (env : ExecEnv) (fs : FS) (fm : FolderMove) (i : Nat) :
    (folderStep env fs fm i).1.move_log = [] := by
  unfold folderStep
  dsimp only []
  repeat' split
  all_goals simp

theorem execFolders_move_log (env : ExecEnv) :
    ∀ (fms : List FolderMove) (fs : FS) (i s : Nat),
      (execFolders env fs fms i s).1.move_log = [] := by
  intro fms
  induction fms with
  | nil =>
    intro fs i s
    rfl
  | cons fm rest ih =>
    intro fs i s
    unfold execFolders
    dsimp only []
    split
    · rfl
    · simp [addResult, folderStep_move_log env fs fm i, ih]

theorem execFiles_partial_run (env : ExecEnv) (L : Nat) :
    ∀ (ms : List FileMove) (fs : FS) (i s k : Nat),
      k ≤ ms.length →
      (∀ j, j < k → flagAt env.cancelFrom (s + j) = false) →
      (k < ms.length → flagAt env.cancelFrom (s + k) = true) →
      ms.Pairwise (fun a b => a.source ≠ b.source) →
      (∀ m ∈ ms, m.source ∈ filePaths fs) →
      (∀ m ∈ ms, m.destination ∉ filePaths fs ∧ m.destination ∉ dirPaths fs) →
      ms.Pairwise (fun a b => a.destination ≠ b.destination) →
      (∀ m ∈ ms, m.destination.length = L) →
      (∀ m ∈ ms, ∀ mb ∈ ms, m.destination ≠ mb.source) →
      (∀ m ∈ ms, checkPathLengthParts env.rootLen m.destination = true) →
      (execFiles env fs ms i s).1.move_log =
          (selectedMoves env (ms.take k) i).map (fun m => (m.source, m.destination)) ∧
        (execFiles env fs ms i s).2.files =
          chainMoves fs.files (selectedMoves env (ms.take k) i) ∧
        (∀ p ∈ dirPaths (execFiles env fs ms i s).2,
          p ∈ dirPaths fs ∨ (1 ≤ p.length ∧ p.length < L)) := by
  intro ms
  induction ms with
  | nil =>
    intro fs i s k hk _ _ _ _ _ _ _ _ _
    have hk0 : k = 0 := by simpa using hk
    subst hk0
    exact ⟨rfl, rfl, fun p hp => Or.inl hp⟩
  | cons m rest ih =>
    intro fs i s k hk hflagF hflagT H1 H2 H3 H4 H5 H6 H8
    have hm0 : m ∈ m :: rest := by simp
    cases k with
    | zero =>
      have hflag : flagAt env.cancelFrom s = true := by
        simpa using hflagT (by simp)
      have hrun : execFiles env fs (m :: rest) i s = ({ cancelled := true }, fs) := by
        simp [execFiles, hflag]
      rw [hrun]
      exact ⟨rfl, rfl, fun p hp => Or.inl hp⟩
    | succ k' =>
      have hflag : flagAt env.cancelFrom s = false := by
        simpa using hflagF 0 (by omega)
      have hdroplen : m.destination.dropLast.length = L - 1 := by
        rw [List.length_dropLast, H5 m hm0]
      have hNoExist : pathExists (mkdirParents fs m.destination.dropLast env.mkdirTime)
          m.destination = false := by
        rcases Bool.eq_false_or_eq_true
          (pathExists (mkdirParents fs m.destination.dropLast env.mkdirTime) m.destination)
          with h | h
        · exfalso
          rcases (pathExists_iff _ _).mp h with hf | hd
          · have hfe : (m.destination ∈ filePaths fs) := by
              simpa [filePaths, partsOf, mkdirParents_files] using hf
            exact (H3 m hm0).1 hfe
          · rcases mkdirParents_dirPaths_mem fs m.destination.dropLast env.mkdirTime
              m.destination hd with hd2 | hd2
            · exact (H3 m hm0).2 hd2
            · have := H5 m hm0
              omega
        · exact h
      have hU : getUniqueDestination (mkdirParents fs m.destination.dropLast env.mkdirTime)
          m.destination = .ok m.destination := by
        unfold getUniqueDestination
        rw [if_pos (by simp [hNoExist])]
      have hpwS := List.pairwise_cons.mp H1
      have hpwD := List.pairwise_cons.mp H4
      have hrun : execFiles env fs (m :: rest) i s =
          (addResult (fileStep env fs m i).1
            (execFiles env (fileStep env fs m i).2 rest (i + 1) (s + 1)).1,
            (execFiles env (fileStep env fs m i).2 rest (i + 1) (s + 1)).2) := by
        simp [execFiles, hflag]
      by_cases hok : okAt env i = true
      · have hsplit : (env.access i).isNone = true ∧ env.outcome i = .ok := by
          simpa [okAt] using hok
        have ha : env.access i = none := Option.isNone_iff_eq_none.mp hsplit.1
        have ho : env.outcome i = .ok := hsplit.2
        have hstep : fileStep env fs m i =
            ({ moved := 1, move_log := [(m.source, m.destination)] },
              moveFile (mkdirParents fs m.destination.dropLast env.mkdirTime)
                m.source m.destination) := by
          simp [fileStep, ha, hU, H8 m hm0, ho]
        obtain ⟨ihlog, ihfiles, ihdirs⟩ :=
          ih (moveFile (mkdirParents fs m.destination.dropLast env.mkdirTime)
              m.source m.destination) (i + 1) (s + 1) k'
            (by simpa using hk)
            (fun j hj => by
              rw [show s + 1 + j = s + (j + 1) by omega]
              exact hflagF (j + 1) (by omega))
            (fun hlt => by
              rw [show s + 1 + k' = s + (k' + 1) by omega]
              exact hflagT (by simpa using hlt))
            hpwS.2
            (fun mb hmb => by
              rw [filePaths, moveFile_files_upd]
              exact partsOf_map_upd_keep m _ mb.source
                (by simpa [filePaths, partsOf, mkdirParents_files] using H2 mb (by simp [hmb]))
                (fun hcontra => hpwS.1 mb hmb hcontra.symm))
            (fun mb hmb => by
              constructor
              · intro hmem
                rw [filePaths, moveFile_files_upd] at hmem
                rcases partsOf_map_upd_mem m _ mb.destination hmem with h2 | h2
                · exact (H3 mb (by simp [hmb])).1
                    (by simpa [filePaths, partsOf, mkdirParents_files] using h2)
                · exact hpwD.1 mb hmb h2.symm
              · intro hmem
                rw [dirPaths] at hmem
                rw [show (moveFile (mkdirParents fs m.destination.dropLast env.mkdirTime)
                  m.source m.destination).dirs
                    = (mkdirParents fs m.destination.dropLast env.mkdirTime).dirs from rfl]
                  at hmem
                rcases mkdirParents_dirPaths_mem fs m.destination.dropLast env.mkdirTime
                  mb.destination hmem with h2 | h2
                · exact (H3 mb (by simp [hmb])).2 h2
                · have := H5 mb (by simp [hmb])
                  omega)
            hpwD.2
            (fun mb hmb => H5 mb (by simp [hmb]))
            (fun a ha' b hb' => H6 a (by simp [ha']) b (by simp [hb']))
            (fun mb hmb => H8 mb (by simp [hmb]))
        rw [hrun, hstep]
        have hsel : selectedMoves env ((m :: rest).take (k' + 1)) i =
            m :: selectedMoves env (rest.take k') (i + 1) := by
          rw [List.take_succ_cons]
          simp only [selectedMoves]
          rw [if_pos hok]
        refine ⟨?_, ?_, ?_⟩
        · rw [hsel, List.map_cons]
          simp only [addResult]
          rw [ihlog]
          rfl
        · rw [hsel, chainMoves_cons, ihfiles, moveFile_files_upd, mkdirParents_files]
        · intro p hp
          rcases ihdirs p hp with h2 | h2
          · rw [dirPaths,
              show (moveFile (mkdirParents fs m.destination.dropLast env.mkdirTime)
                m.source m.destination).dirs
                  = (mkdirParents fs m.destination.dropLast env.mkdirTime).dirs from rfl]
              at h2
            rcases mkdirParents_dirPaths_mem fs m.destination.dropLast env.mkdirTime p h2
              with h3 | h3
            · exact Or.inl h3
            · right
              omega
          · exact Or.inr h2
      · have hsel : selectedMoves env ((m :: rest).take (k' + 1)) i =
            selectedMoves env (rest.take k') (i + 1) := by
          rw [List.take_succ_cons]
          simp only [selectedMoves]
          rw [if_neg hok]
        have hdirsMk : ∀ p ∈ dirPaths (mkdirParents fs m.destination.dropLast env.mkdirTime),
            p ∈ dirPaths fs ∨ (1 ≤ p.length ∧ p.length < L) := by
          intro p hp
          rcases mkdirParents_dirPaths_mem fs m.destination.dropLast env.mkdirTime p hp
            with h2 | h2
          · exact Or.inl h2
          · right
            omega
        have hstepF : (fileStep env fs m i).1.move_log = [] ∧
            (fileStep env fs m i).2.files = fs.files ∧
            (∀ p ∈ dirPaths (fileStep env fs m i).2,
              p ∈ dirPaths fs ∨ (1 ≤ p.length ∧ p.length < L)) := by
          rcases hacc : env.access i with _ | r
          · have hno : ¬ env.outcome i = .ok := by
              intro hc
              exact hok (by simp [okAt, hacc, hc])
            rcases hoc : env.outcome i with _ | msg | msg | msg
            · exact absurd hoc hno
            · have hstep : fileStep env fs m i =
                  ({ skipped := 1, skipped_files := [⟨m.source, .PERMISSION_DENIED, msg⟩] },
                    mkdirParents fs m.destination.dropLast env.mkdirTime) := by
                simp [fileStep, hacc, hU, H8 m hm0, hoc]
              rw [hstep]
              exact ⟨rfl, mkdirParents_files _ _ _, hdirsMk⟩
            · by_cases hin : osErrorInUse msg = true
              · have hstep : fileStep env fs m i =
                    ({ skipped := 1, skipped_files := [⟨m.source, .FILE_IN_USE, msg⟩] },
                      mkdirParents fs m.destination.dropLast env.mkdirTime) := by
                  simp [fileStep, hacc, hU, H8 m hm0, hoc, hin]
                rw [hstep]
                exact ⟨rfl, mkdirParents_files _ _ _, hdirsMk⟩
              · have hstep : fileStep env fs m i =
                    ({ errors := 1,
                        error_messages := [m.source.getLastD "" ++ ": " ++ msg] },
                      mkdirParents fs m.destination.dropLast env.mkdirTime) := by
                  simp [fileStep, hacc, hU, H8 m hm0, hoc, hin]
                rw [hstep]
                exact ⟨rfl, mkdirParents_files _ _ _, hdirsMk⟩
            · have hstep : fileStep env fs m i =
                  ({ errors := 1,
                      error_messages := [m.source.getLastD "" ++ ": " ++ msg] },
                    mkdirParents fs m.destination.dropLast env.mkdirTime) := by
                simp [fileStep, hacc, hU, H8 m hm0, hoc]
              rw [hstep]
              exact ⟨rfl, mkdirParents_files _ _ _, hdirsMk⟩
          · have hstep : fileStep env fs m i =
                ({ skipped := 1, skipped_files := [⟨m.source, r, ""⟩] }, fs) := by
              simp [fileStep, hacc]
            rw [hstep]
            exact ⟨rfl, rfl, fun p hp => Or.inl hp⟩
        obtain ⟨hlog0, hfiles0, hdirs0⟩ := hstepF
        obtain ⟨ihlog, ihfiles, ihdirs⟩ :=
          ih (fileStep env fs m i).2 (i + 1) (s + 1) k'
            (by simpa using hk)
            (fun j hj => by
              rw [show s + 1 + j = s + (j + 1) by omega]
              exact hflagF (j + 1) (by omega))
            (fun hlt => by
              rw [show s + 1 + k' = s + (k' + 1) by omega]
              exact hflagT (by simpa using hlt))
            hpwS.2
            (fun mb hmb => by
              rw [filePaths, hfiles0]
              exact H2 mb (by simp [hmb]))
            (fun mb hmb => by
              constructor
              · intro hmem
                rw [filePaths, hfiles0] at hmem
                exact (H3 mb (by simp [hmb])).1 hmem
              · intro hmem
                rcases hdirs0 mb.destination hmem with h2 | h2
                · exact (H3 mb (by simp [hmb])).2 h2
                · have := H5 mb (by simp [hmb])
                  omega)
            hpwD.2
            (fun mb hmb => H5 mb (by simp [hmb]))
            (fun a ha' b hb' => H6 a (by simp [ha']) b (by simp [hb']))
            (fun mb hmb => H8 mb (by simp [hmb]))
        rw [hrun]
        refine ⟨?_, ?_, ?_⟩
        · simp only [addResult]
          rw [hlog0, ihlog, hsel]
          rfl
        · rw [hsel, ihfiles, hfiles0]
        · intro p hp
          rcases ihdirs p hp with h2 | h2
          · exact hdirs0 p h2
          · exact Or.inr h2

theorem executeMoves_decomp (env : ExecEnv) (fs : FS) (fileMoves : List FileMove)
    (folderMoves : List FolderMove) :
    executeMoves env fs fileMoves folderMoves =
      (addResult (execFolders env fs folderMoves 0 0).1
        (execFiles env (execFolders env fs folderMoves 0 0).2 fileMoves 0
          folderMoves.length).1,
        (execFiles env (execFolders env fs folderMoves 0 0).2 fileMoves 0
          folderMoves.length).2) := rfl

theorem executeMoves_move_log (env : ExecEnv) (fs : FS) (fileMoves : List FileMove)
    (folderMoves : List FolderMove) :
    (executeMoves env fs fileMoves folderMoves).1.move_log =
      (execFiles env (execFolders env fs folderMoves 0 0).2 fileMoves 0
        folderMoves.length).1.move_log := by
  rw [executeMoves_decomp]
  simp [addResult, execFolders_move_log]

theorem executeMoves_snd (env : ExecEnv) (fs : FS) (fileMoves : List FileMove)
    (folderMoves : List FolderMove) :
    (executeMoves env fs fileMoves folderMoves).2 =
      (execFiles env (execFolders env fs folderMoves 0 0).2 fileMoves 0
        folderMoves.length).2 := by
  rw [executeMoves_decomp]

theorem execRestore_clean_run (renv : RestoreEnv) (origFiles : List FileEntry)
    (dirs0 : List (List String)) (full : List FileMove)
    (hcancel : renv.cancelFrom = none)
    (hok : ∀ j, renv.outcome j = .ok)
    (H1 : full.Pairwise (fun a b => a.source ≠ b.source))
    (H4 : full.Pairwise (fun a b => a.destination ≠ b.destination))
    (H6 : ∀ a ∈ full, ∀ b ∈ full, a.destination ≠ b.source)
    (H2 : ∀ m ∈ full, m.source ∈ partsOf origFiles)
    (H3f : ∀ m ∈ full, m.destination ∉ partsOf origFiles)
    (hwfD : ∀ m ∈ full, m.source ∉ dirs0)
    (hnd : ∀ m ∈ full, ∀ m' ∈ full, ¬ m.source <+: m'.destination.dropLast)
    (hndS : ∀ m ∈ full, ∀ m' ∈ full, ¬ m.source <+: m'.source.dropLast) :
    ∀ (rest : List FileMove) (fsc : FS) (i : Nat),
      rest.Sublist full →
      fsc.files = origFiles.map (chainUpd rest) →
      (∀ q ∈ dirPaths fsc, q ∈ dirs0 ∨ (∃ m ∈ full, q <+: m.destination.dropLast) ∨
        (∃ m ∈ full, q <+: m.source.dropLast)) →
      (execRestore renv fsc (rest.map (fun m => (m.source, m.destination))) i).1 =
          { moved := rest.length,
            move_log := rest.map (fun m => (m.destination, m.source)) } ∧
        (execRestore renv fsc (rest.map (fun m => (m.source, m.destination))) i).2.files =
          origFiles := by
  intro rest
  induction rest with
  | nil =>
    intro fsc i hsub hfiles hdirs
    refine ⟨by simp [execRestore], ?_⟩
    show fsc.files = origFiles
    rw [hfiles, ← chainMoves_eq_map]
    rfl
  | cons m rest' ih =>
    intro fsc i hsub hfiles hdirs
    have hmfull : m ∈ full := hsub.subset (by simp)
    have hsub' : rest'.Sublist full := List.sublist_of_cons_sublist hsub
    have hpw1 : (m :: rest').Pairwise (fun a b => a.source ≠ b.source) :=
      List.Pairwise.sublist hsub H1
    have hpw4 : (m :: rest').Pairwise (fun a b => a.destination ≠ b.destination) :=
      List.Pairwise.sublist hsub H4
    have hflag : flagAt renv.cancelFrom i = false := by simp [flagAt, hcancel]
    have hdest_mem : m.destination ∈ filePaths fsc := by
      obtain ⟨e, he, hep⟩ : ∃ e ∈ origFiles, e.parts = m.source := by
        have h2 := H2 m hmfull
        simp only [partsOf, List.mem_map] at h2
        exact h2
      have hupd : chainUpd (m :: rest') e = { e with parts := m.destination } :=
        chainUpd_moved _ e m (by simp) hep hpw1
          (fun a ha b hb => H6 a (hsub.subset ha) b (hsub.subset hb))
      rw [filePaths, hfiles, partsOf, List.map_map]
      refine List.mem_map.mpr ⟨e, he, ?_⟩
      show (chainUpd (m :: rest') e).parts = m.destination
      rw [hupd]
    have hdexists : pathExists fsc m.destination = true :=
      (pathExists_iff _ _).mpr (Or.inl hdest_mem)
    have hsrc_notfile : m.source ∉ filePaths fsc := by
      intro hmem
      rw [filePaths, hfiles, partsOf, List.map_map] at hmem
      obtain ⟨e, he, hep⟩ := List.mem_map.mp hmem
      have hep2 : (chainUpd (m :: rest') e).parts = m.source := hep
      rcases chainUpd_parts_cases (m :: rest') e with hp | ⟨m', hm', hp⟩
      · rw [hp] at hep2
        have hupd : chainUpd (m :: rest') e = { e with parts := m.destination } :=
          chainUpd_moved _ e m (by simp) hep2 hpw1
            (fun a ha b hb => H6 a (hsub.subset ha) b (hsub.subset hb))
        have : (chainUpd (m :: rest') e).parts = m.destination := by rw [hupd]
        rw [hp] at this
        rw [hep2] at this
        exact H6 m hmfull m hmfull this.symm
      · rw [hp] at hep2
        exact H6 m' (hsub.subset hm') m hmfull hep2
    have hsrc_notdir : m.source ∉
        dirPaths (mkdirParents fsc m.source.dropLast renv.mkdirTime) := by
      intro hmem
      rcases mkdirParents_dirPaths_mem fsc m.source.dropLast renv.mkdirTime
        m.source hmem with h2 | h2
      · rcases hdirs m.source h2 with h3 | ⟨m', hm', h3⟩ | ⟨m', hm', h3⟩
        · exact hwfD m hmfull h3
        · exact hnd m hmfull m' hm' h3
        · exact hndS m hmfull m' hm' h3
      · have hl := List.length_dropLast m.source
        omega
    have hfree : pathExists (mkdirParents fsc m.source.dropLast renv.mkdirTime)
        m.source = false := by
      rcases Bool.eq_false_or_eq_true
        (pathExists (mkdirParents fsc m.source.dropLast renv.mkdirTime) m.source)
        with h | h
      · exfalso
        rcases (pathExists_iff _ _).mp h with hf | hd
        · exact hsrc_notfile (by simpa [filePaths, partsOf, mkdirParents_files] using hf)
        · exact hsrc_notdir hd
      · exact h
    have hfind : findFreeRestored (mkdirParents fsc m.source.dropLast renv.mkdirTime)
        m.source = m.source := by
      unfold findFreeRestored
      rw [if_neg (by simp [hfree])]
    have hstepR : restoreStep renv fsc m.source m.destination i =
        ({ moved := 1, move_log := [(m.destination, m.source)] },
          moveFile (mkdirParents fsc m.source.dropLast renv.mkdirTime)
            m.destination m.source) := by
      unfold restoreStep
      rw [if_neg (by simp [hdexists])]
      simp [hfind, hok i]
    have hH6c : ∀ a ∈ m :: rest', ∀ b ∈ m :: rest', a.destination ≠ b.source :=
      fun a ha b hb => H6 a (hsub.subset ha) b (hsub.subset hb)
    have hfiles' : (moveFile (mkdirParents fsc m.source.dropLast renv.mkdirTime)
        m.destination m.source).files = origFiles.map (chainUpd rest') := by
      rw [moveFile_files_back]
      rw [show (mkdirParents fsc m.source.dropLast renv.mkdirTime).files = fsc.files
        from rfl]
      rw [hfiles, List.map_map]
      apply List.map_congr_left
      intro e he
      show backEntry m (chainUpd (m :: rest') e) = chainUpd rest' e
      by_cases hcase : e.parts = m.source
      · have hupd : chainUpd (m :: rest') e = { e with parts := m.destination } :=
          chainUpd_moved _ e m (by simp) hcase hpw1 hH6c
        rw [hupd]
        unfold backEntry
        rw [if_pos rfl]
        have hcollapse : ({ { e with parts := m.destination } with parts := m.source } :
            FileEntry) = e := setParts_self e m.source hcase
        rw [hcollapse]
        symm
        exact chainUpd_untouched rest' e (fun m' hm' hc =>
          (List.pairwise_cons.mp hpw1).1 m' hm' (by rw [← hc] at hcase; exact hcase.symm))
      · have hstep0 : chainUpd (m :: rest') e = chainUpd rest' (updEntry m e) := rfl
        have hupd0 : updEntry m e = e := by
          unfold updEntry
          rw [if_neg hcase]
        rw [hstep0, hupd0]
        unfold backEntry
        rw [if_neg ?_]
        intro hc
        rcases chainUpd_parts_cases rest' e with hp | ⟨m', hm', hp⟩
        · rw [hp] at hc
          exact H3f m hmfull (by rw [← hc]; exact List.mem_map.mpr ⟨e, he, rfl⟩)
        · rw [hp] at hc
          exact (List.pairwise_cons.mp hpw4).1 m' hm' hc.symm
    have hdirs' : ∀ q ∈ dirPaths (moveFile (mkdirParents fsc m.source.dropLast
        renv.mkdirTime) m.destination m.source),
        q ∈ dirs0 ∨ (∃ m' ∈ full, q <+: m'.destination.dropLast) ∨
          (∃ m' ∈ full, q <+: m'.source.dropLast) := by
      intro q hq
      rw [show dirPaths (moveFile (mkdirParents fsc m.source.dropLast renv.mkdirTime)
        m.destination m.source) = dirPaths (mkdirParents fsc m.source.dropLast
        renv.mkdirTime) from rfl] at hq
      rcases mkdirParents_dirPaths_prefix fsc m.source.dropLast renv.mkdirTime q hq
        with h2 | h2
      · exact hdirs q h2
      · exact Or.inr (Or.inr ⟨m, hmfull, h2⟩)
    obtain ⟨ihres, ihfiles⟩ := ih (moveFile (mkdirParents fsc m.source.dropLast
      renv.mkdirTime) m.destination m.source) (i + 1) hsub' hfiles' hdirs'
    have hrun : execRestore renv fsc
        ((m :: rest').map (fun m => (m.source, m.destination))) i =
        (addResult (restoreStep renv fsc m.source m.destination i).1
          (execRestore renv (restoreStep renv fsc m.source m.destination i).2
            (rest'.map (fun m => (m.source, m.destination))) (i + 1)).1,
          (execRestore renv (restoreStep renv fsc m.source m.destination i).2
            (rest'.map (fun m => (m.source, m.destination))) (i + 1)).2) := by
      simp [execRestore, hflag]
    refine ⟨?_, ?_⟩
    · rw [hrun, hstepR, ihres]
      simp [addResult, show 1 + rest'.length = rest'.length + 1 from by omega]
    · rw [hrun, hstepR]
      exact ihfiles

/-! Claim theorems. -/

set_option maxRecDepth 4000 in
/-- C9: the path-length check accepts a destination exactly when its
textual length does not exceed the fixed ceiling of 260 characters; a
260-character path is accepted and a 261-character path is rejected. -/
theorem claim_C9_path_length_boundary :
    (∀ p : String, check_path_length p = true ↔ p.length ≤ 260) ∧
    check_path_length (String.mk (List.replicate 260 'a')) = true ∧
    check_path_length (String.mk (List.replicate 261 'a')) = false := by
  refine ⟨fun p => ?_, by decide, by decide⟩
  simp [check_path_length, maxPathLength]

/-- C8: the organizing date is the earlier of the creation and
modification timestamps; if that candidate's year is before 1980 or more
than one year in the future the modification time alone is used; if that
is still out of range the result is invalid. -/
theorem claim_C8_date_fallback (nowYear : Nat) (ctime mtime : Timestamp) :
    (¬((tsMin ctime mtime).year < 1980 ∨ nowYear + 1 < (tsMin ctime mtime).year) →
      getFileDate nowYear ctime mtime = some (tsMin ctime mtime)) ∧
    (((tsMin ctime mtime).year < 1980 ∨ nowYear + 1 < (tsMin ctime mtime).year) →
      ¬(mtime.year < 1980 ∨ nowYear + 1 < mtime.year) →
      getFileDate nowYear ctime mtime = some mtime) ∧
    (((tsMin ctime mtime).year < 1980 ∨ nowYear + 1 < (tsMin ctime mtime).year) →
      (mtime.year < 1980 ∨ nowYear + 1 < mtime.year) →
      getFileDate nowYear ctime mtime = none) := by
  refine ⟨fun h => ?_, fun h1 h2 => ?_, fun h1 h2 => ?_⟩ <;>
    simp only [getFileDate] <;>
    first
      | rw [if_neg h]
      | rw [if_pos h1, if_neg h2]
      | rw [if_pos h1, if_pos h2]

/-- C8 witness: a file whose creation year is 1601 but whose
modification time is valid is dated by the modification time. -/
theorem claim_C8_date_fallback_witness :
    getFileDate 2026 ⟨1601, 1, 0⟩ ⟨2020, 5, 3⟩ = some ⟨2020, 5, 3⟩ :=
  (claim_C8_date_fallback 2026 ⟨1601, 1, 0⟩ ⟨2020, 5, 3⟩).2.1 (by decide) (by decide)

/-- C2: a saved journal's moves list is exactly the move_log passed in,
its file_count is the length of that list, the worker saves a journal
exactly when move_log or folder_move_log is non-empty, and the journal
content never depends on folder_move_log. -/
theorem claim_C2_journal_contents (ts src : String) (mode : SortMode)
    (result : OrganizeResult) (allSkipped : List SkippedFile) :
    (∀ b, organizeWorkerBackup ts src mode result allSkipped = some b →
      b.moves = result.move_log ∧ b.file_count = result.move_log.length) ∧
    ((organizeWorkerBackup ts src mode result allSkipped).isSome = true ↔
      (result.move_log ≠ [] ∨ result.folder_move_log ≠ [])) ∧
    (∀ fml b, organizeWorkerBackup ts src mode { result with folder_move_log := fml }
        allSkipped = some b →
      b = saveBackup ts src result.move_log mode.value allSkipped) := by
  refine ⟨fun b hb => ?_, ?_, fun fml b hb => ?_⟩
  · unfold organizeWorkerBackup at hb
    split at hb
    · cases hb
      exact ⟨rfl, rfl⟩
    · cases hb
  · unfold organizeWorkerBackup
    split
    next h => simpa using h
    next h => simpa using h
  · unfold organizeWorkerBackup at hb
    split at hb
    · cases hb
      rfl
    · cases hb

/-- C2 witness: saving a one-move batch with a non-empty folder move
log produces a journal with exactly that move pair and file_count 1. -/
theorem claim_C2_journal_contents_witness :
    (∀ b, organizeWorkerBackup "ts" "root" SortMode.BY_BOTH
        { move_log := [(["a.txt"], ["Documents", "a.txt"])],
          folder_move_log := [(["d"], ["2020", "01-January", "d"], 2)] } [] = some b →
      b.moves = [(["a.txt"], ["Documents", "a.txt"])] ∧ b.file_count = 1) ∧
    (organizeWorkerBackup "ts" "root" SortMode.BY_BOTH
        { move_log := [(["a.txt"], ["Documents", "a.txt"])],
          folder_move_log := [(["d"], ["2020", "01-January", "d"], 2)] } []).isSome = true := by
  constructor
  · intro b hb
    exact (claim_C2_journal_contents "ts" "root" SortMode.BY_BOTH
      { move_log := [(["a.txt"], ["Documents", "a.txt"])],
        folder_move_log := [(["d"], ["2020", "01-January", "d"], 2)] } []).1 b hb
  · exact (claim_C2_journal_contents "ts" "root" SortMode.BY_BOTH
      { move_log := [(["a.txt"], ["Documents", "a.txt"])],
        folder_move_log := [(["d"], ["2020", "01-January", "d"], 2)] } []).2.1.mpr
      (by simp)

/-- C7: the collision resolver returns a non-existing candidate
unchanged; otherwise it returns the first free name among
`name_1.ext`, `name_2.ext`, …, strictly increasing with no gaps and no
reuse, and it fails with the internal limit error past 10000 attempts. -/
theorem claim_C7_collision_determinism (fs : FS) (dest : List String) :
    (pathExists fs dest = false → getUniqueDestination fs dest = .ok dest) ∧
    (∀ k, pathExists fs dest = true → 1 ≤ k → k ≤ 10000 →
      pathExists fs (dest.dropLast ++
        [uniqueName (pyStem (dest.getLastD "")) (pySuffix (dest.getLastD "")) k]) = false →
      (∀ j, 1 ≤ j → j < k → pathExists fs (dest.dropLast ++
        [uniqueName (pyStem (dest.getLastD "")) (pySuffix (dest.getLastD "")) j]) = true) →
      getUniqueDestination fs dest = .ok (dest.dropLast ++
        [uniqueName (pyStem (dest.getLastD "")) (pySuffix (dest.getLastD "")) k])) ∧
    (pathExists fs dest = true →
      (∀ j, 1 ≤ j → j ≤ 10000 → pathExists fs (dest.dropLast ++
        [uniqueName (pyStem (dest.getLastD "")) (pySuffix (dest.getLastD "")) j]) = true) →
      getUniqueDestination fs dest = .error "Too many duplicate files") := by
  refine ⟨fun h => ?_, fun k he h1 hk hfree hj => ?_, fun he hall => ?_⟩
  · unfold getUniqueDestination
    rw [if_pos (by simp [h])]
  · unfold getUniqueDestination
    rw [if_neg (by simp [he])]
    exact uniqueLoop_finds fs dest.dropLast (pyStem (dest.getLastD ""))
      (pySuffix (dest.getLastD "")) k hk hfree (k - 1) 1 9999 h1 (by omega) (by omega)
      (fun j ha hb => hj j ha hb)
  · unfold getUniqueDestination
    rw [if_neg (by simp [he])]
    exact uniqueLoop_limit fs dest.dropLast (pyStem (dest.getLastD ""))
      (pySuffix (dest.getLastD "")) 9999 1 9999 le_rfl (by omega) (by omega) (by omega)
      (fun j ha hb => hall j ha hb)

/-- C7 witness: with `report.pdf` and `report_1.pdf` both present, the
resolver yields `report_2.pdf`. -/
theorem claim_C7_collision_determinism_witness :
    getUniqueDestination collisionFS ["Documents", "report.pdf"] =
      .ok ["Documents", "report_2.pdf"] := by
  have h := (claim_C7_collision_determinism collisionFS ["Documents", "report.pdf"]).2.1 2
    (by decide) (by decide) (by decide) (by decide)
    (fun j h1 h2 => by interval_cases j; decide)
  exact h

/-- C5: during a batch, a permission failure on a file move is recorded
as a PERMISSION_DENIED skip, an OS failure whose message indicates the
file is in use as a FILE_IN_USE skip; every other OS-level failure
increments the error count and appends an error message; and no
per-item skip or error aborts the batch — without cancellation all
planned moves are accounted for and the result is not cancelled. -/
theorem claim_C5_error_taxonomy :
    (∀ (env : ExecEnv) (fs : FS) (m : FileMove) (i : Nat) (fd : List String) (msg : String),
      env.access i = none →
      getUniqueDestination (mkdirParents fs m.destination.dropLast env.mkdirTime)
          m.destination = .ok fd →
      checkPathLengthParts env.rootLen fd = true →
      ((env.outcome i = .permError msg →
          fileStep env fs m i =
            ({ skipped := 1, skipped_files := [⟨m.source, .PERMISSION_DENIED, msg⟩] },
              mkdirParents fs m.destination.dropLast env.mkdirTime)) ∧
        (env.outcome i = .osError msg → osErrorInUse msg = true →
          fileStep env fs m i =
            ({ skipped := 1, skipped_files := [⟨m.source, .FILE_IN_USE, msg⟩] },
              mkdirParents fs m.destination.dropLast env.mkdirTime)) ∧
        (env.outcome i = .osError msg → osErrorInUse msg = false →
          fileStep env fs m i =
            ({ errors := 1, error_messages := [m.source.getLastD "" ++ ": " ++ msg] },
              mkdirParents fs m.destination.dropLast env.mkdirTime)))) ∧
    (∀ (env : ExecEnv), env.cancelFrom = none → ∀ (ms : List FileMove) (fs : FS) (i s : Nat),
      (execFiles env fs ms i s).1.moved + (execFiles env fs ms i s).1.skipped
          + (execFiles env fs ms i s).1.errors = ms.length ∧
        (execFiles env fs ms i s).1.cancelled = false) := by
  constructor
  · intro env fs m i fd msg hacc hU hlen
    refine ⟨fun ho => ?_, fun ho hInUse => ?_, fun ho hInUse => ?_⟩
    · simp [fileStep, hacc, hU, hlen, ho]
    · simp [fileStep, hacc, hU, hlen, ho, hInUse]
    · simp [fileStep, hacc, hU, hlen, ho, hInUse]
  · intro env hc ms fs i s
    exact execFiles_accounting env hc ms fs i s

/-- C5 witness: an in-use `OSError` on the only planned move yields one
FILE_IN_USE skip, and the singleton batch accounts for exactly one item. -/
theorem claim_C5_error_taxonomy_witness :
    fileStep taxonomyEnv taxonomyFS taxonomyMove 0 =
      ({ skipped := 1, skipped_files := [SkippedFile.mk ["a.txt"] SkipReason.FILE_IN_USE "The process cannot access the file because it is being used by another process"] }, mkdirParents taxonomyFS ["Documents"] ⟨2020, 1, 0⟩) ∧
    (execFiles taxonomyEnv taxonomyFS [taxonomyMove] 0 0).1.moved
        + (execFiles taxonomyEnv taxonomyFS [taxonomyMove] 0 0).1.skipped
        + (execFiles taxonomyEnv taxonomyFS [taxonomyMove] 0 0).1.errors = 1 := by
  constructor
  · exact (claim_C5_error_taxonomy.1 taxonomyEnv taxonomyFS taxonomyMove 0
      ["Documents", "a.txt"]
      "The process cannot access the file because it is being used by another process"
      rfl rfl (by decide)).2.1 rfl (by decide)
  · exact (claim_C5_error_taxonomy.2 taxonomyEnv rfl [taxonomyMove] taxonomyFS 0 0).1

/-- C6: a restore run that is never cancelled accounts for every journal
pair exactly once among moved, skipped and errored; a pair whose
destination no longer exists contributes a MOVE_ERROR skip and the run
continues with the remaining pairs on an unchanged tree. -/
theorem claim_C6_restorer_totality :
    (∀ (env : RestoreEnv), env.cancelFrom = none →
      ∀ (moves : List (List String × List String)) (fs : FS) (i : Nat),
        (execRestore env fs moves i).1.moved + (execRestore env fs moves i).1.skipped
            + (execRestore env fs moves i).1.errors = moves.length ∧
          (execRestore env fs moves i).1.cancelled = false) ∧
    (∀ (env : RestoreEnv) (fs : FS) (original destination : List String)
        (rest : List (List String × List String)) (i : Nat),
      flagAt env.cancelFrom i = false →
      pathExists fs destination = false →
      execRestore env fs ((original, destination) :: rest) i =
        (addResult
          { skipped := 1, skipped_files := [⟨destination, SkipReason.MOVE_ERROR, "File not found"⟩] }
          (execRestore env fs rest (i + 1)).1,
          (execRestore env fs rest (i + 1)).2)) := by
  constructor
  · intro env hc moves fs i
    exact execRestore_accounting env hc moves fs i
  · intro env fs original destination rest i hflag hmiss
    have hstep : restoreStep env fs original destination i =
        ({ skipped := 1, skipped_files := [⟨destination, SkipReason.MOVE_ERROR, "File not found"⟩] },
          fs) := by
      unfold restoreStep
      rw [if_pos (by simp [hmiss])]
    simp only [execRestore, hflag, Bool.false_eq_true, if_false, hstep]

/-- C6 witness: a journal whose first destination is gone and whose
second destination exists restores into one skip and one move, and the
two-pair run accounts for exactly two items. -/
theorem claim_C6_restorer_totality_witness :
    (execRestore restoreEnvOk
        { files := [⟨["Images", "b.jpg"], false, false, false, false, ⟨2020, 1, 0⟩, ⟨2020, 1, 0⟩⟩],
          dirs := [⟨["Images"], ⟨2020, 1, 0⟩, ⟨2020, 1, 0⟩⟩] }
        [(["gone.txt"], ["Images", "gone.txt"]), (["b.jpg"], ["Images", "b.jpg"])] 0).1.skipped = 1 ∧
    (execRestore restoreEnvOk
        { files := [⟨["Images", "b.jpg"], false, false, false, false, ⟨2020, 1, 0⟩, ⟨2020, 1, 0⟩⟩],
          dirs := [⟨["Images"], ⟨2020, 1, 0⟩, ⟨2020, 1, 0⟩⟩] }
        [(["gone.txt"], ["Images", "gone.txt"]), (["b.jpg"], ["Images", "b.jpg"])] 0).1.moved
      + (execRestore restoreEnvOk
        { files := [⟨["Images", "b.jpg"], false, false, false, false, ⟨2020, 1, 0⟩, ⟨2020, 1, 0⟩⟩],
          dirs := [⟨["Images"], ⟨2020, 1, 0⟩, ⟨2020, 1, 0⟩⟩] }
        [(["gone.txt"], ["Images", "gone.txt"]), (["b.jpg"], ["Images", "b.jpg"])] 0).1.skipped
      + (execRestore restoreEnvOk
        { files := [⟨["Images", "b.jpg"], false, false, false, false, ⟨2020, 1, 0⟩, ⟨2020, 1, 0⟩⟩],
          dirs := [⟨["Images"], ⟨2020, 1, 0⟩, ⟨2020, 1, 0⟩⟩] }
        [(["gone.txt"], ["Images", "gone.txt"]), (["b.jpg"], ["Images", "b.jpg"])] 0).1.errors = 2 := by
  constructor
  · rw [(claim_C6_restorer_totality.2 restoreEnvOk
      { files := [⟨["Images", "b.jpg"], false, false, false, false, ⟨2020, 1, 0⟩, ⟨2020, 1, 0⟩⟩],
        dirs := [⟨["Images"], ⟨2020, 1, 0⟩, ⟨2020, 1, 0⟩⟩] } ["gone.txt"] ["Images", "gone.txt"]
      [(["b.jpg"], ["Images", "b.jpg"])] 0 rfl (by decide))]
    decide
  · exact ((claim_C6_restorer_totality.1 restoreEnvOk rfl
      [(["gone.txt"], ["Images", "gone.txt"]), (["b.jpg"], ["Images", "b.jpg"])]
      { files := [⟨["Images", "b.jpg"], false, false, false, false, ⟨2020, 1, 0⟩, ⟨2020, 1, 0⟩⟩],
        dirs := [⟨["Images"], ⟨2020, 1, 0⟩, ⟨2020, 1, 0⟩⟩] } 0)).1

/-- C10: every file destination, every folder destination (for any
possibly-invalid organizing date), and every collision-resolved final
destination (which keeps its parent directory) lies strictly inside the
configured source root. -/
theorem claim_C10_destination_containment :
    (∀ (root : List String) (mode : SortMode) (date : Option Timestamp) (name : String),
      root <+: getDestinationPath root mode date name ∧
        root.length < (getDestinationPath root mode date name).length) ∧
    (∀ (root : List String) (date : Option Timestamp) (name : String),
      root <+: getFolderDestination root date name ∧
        root.length < (getFolderDestination root date name).length) ∧
    (∀ (root : List String) (fs : FS) (dest p : List String),
      getUniqueDestination fs dest = .ok p →
      root <+: dest → root.length < dest.length →
      root <+: p ∧ root.length < p.length) := by
  refine ⟨fun root mode date name => ?_, fun root date name => ?_,
    fun root fs dest p hU hpre hlen => ?_⟩
  · refine ⟨List.prefix_append _ _, ?_⟩
    have hpos : 0 < (destinationParts mode date name).length := by
      cases mode <;> simp [destinationParts]
    simp only [getDestinationPath, List.length_append]
    omega
  · refine ⟨List.prefix_append _ _, ?_⟩
    simp [getFolderDestination, folderDestinationParts]
  · rcases getUniqueDestination_ok_shape fs dest p hU with hp | ⟨nm, hp⟩
    · subst hp
      exact ⟨hpre, hlen⟩
    · obtain ⟨t, ht⟩ := hpre
      have htne : t ≠ [] := by
        intro hnil
        rw [hnil, List.append_nil] at ht
        rw [ht] at hlen
        omega
      subst hp
      rw [← ht, dropLast_append_ne_nil root t htne, List.append_assoc]
      refine ⟨List.prefix_append _ _, ?_⟩
      simp

/-- C10 witness: the collision-resolved destination `x_1.pdf` of an
occupied destination under the root stays inside the root. -/
theorem claim_C10_destination_containment_witness :
    ["root"] <+: ["root", "Documents", "x_1.pdf"] ∧
      (["root"] : List String).length < (["root", "Documents", "x_1.pdf"] : List String).length :=
  claim_C10_destination_containment.2.2 ["root"]
    { files := [⟨["root", "Documents", "x.pdf"], false, false, false, false,
        ⟨2020, 1, 0⟩, ⟨2020, 1, 0⟩⟩], dirs := [] }
    ["root", "Documents", "x.pdf"] ["root", "Documents", "x_1.pdf"]
    rfl (by decide) (by decide)

/-- C4: the executor checks the cancellation flag before each folder
move and each file move; when the flag is first observed at the check
before the (k+1)-st of n planned file moves (k < n) and the first k
moves run cleanly, the batch reports moved = k and cancelled = true with
no skips or errors, retains every completed move (its destination is
present, and the move log holds exactly the k completed pairs), and
leaves the remaining n - k sources at their original paths. -/
theorem claim_C4_cancellation (env : ExecEnv) (fs : FS) (ms : List FileMove) (k L : Nat)
    (hcut : env.cancelFrom = some k)
    (hk : k < ms.length)
    (haccess : ∀ j, j < k → env.access j = none)
    (houtcome : ∀ j, j < k → env.outcome j = .ok)
    (H1 : ms.Pairwise (fun a b => a.source ≠ b.source))
    (H2 : ∀ m ∈ ms, m.source ∈ filePaths fs)
    (H3 : ∀ m ∈ ms, m.destination ∉ filePaths fs ∧ m.destination ∉ dirPaths fs)
    (H4 : ms.Pairwise (fun a b => a.destination ≠ b.destination))
    (H5 : ∀ m ∈ ms, m.destination.length = L)
    (H6 : ∀ m ∈ ms, ∀ m' ∈ ms, m.destination ≠ m'.source)
    (H8 : ∀ m ∈ ms, checkPathLengthParts env.rootLen m.destination = true) :
    (executeMoves env fs ms []).1.moved = k ∧
      (executeMoves env fs ms []).1.cancelled = true ∧
      (executeMoves env fs ms []).1.skipped = 0 ∧
      (executeMoves env fs ms []).1.errors = 0 ∧
      (executeMoves env fs ms []).1.move_log =
        (ms.take k).map (fun m => (m.source, m.destination)) ∧
      (∀ m ∈ ms.take k, m.destination ∈ filePaths (executeMoves env fs ms []).2) ∧
      (∀ m ∈ ms.drop k, m.source ∈ filePaths (executeMoves env fs ms []).2) ∧
      (∀ (fm : FolderMove) (fms : List FolderMove) (i s : Nat) (fs2 : FS),
        flagAt env.cancelFrom s = true →
        execFolders env fs2 (fm :: fms) i s = ({ cancelled := true }, fs2)) ∧
      (∀ (mv : FileMove) (mvs : List FileMove) (i s : Nat) (fs2 : FS),
        flagAt env.cancelFrom s = true →
        execFiles env fs2 (mv :: mvs) i s = ({ cancelled := true }, fs2)) := by
  rw [executeMoves_no_folders]
  obtain ⟨hres, hfiles, _⟩ := execFiles_clean_run env L ms fs 0 0 k (le_of_lt hk)
    (fun j hj => by simp [hcut, flagAt]; omega)
    (fun _ => by simp [hcut, flagAt])
    (fun j hj => by simpa using haccess j hj)
    (fun j hj => by simpa using houtcome j hj)
    H1 H2 H3 H4 H5 H6 H8
  have hto : ms = ms.take k ++ ms.drop k := (List.take_append_drop k ms).symm
  have hcross : ∀ a ∈ ms.take k, ∀ b ∈ ms.drop k, a.source ≠ b.source := by
    have := H1
    rw [hto] at this
    exact (List.pairwise_append.mp this).2.2
  refine ⟨?_, ?_, ?_, ?_, ?_, ?_, ?_, ?_, ?_⟩
  · rw [hres]
    rfl
  · rw [hres]
    simp [cleanRunResult, hk]
  · rw [hres]
    rfl
  · rw [hres]
    rfl
  · rw [hres]
    rfl
  · intro m hm
    rw [filePaths, hfiles]
    exact chainMoves_dest_mem (ms.take k) fs.files
      (H1.sublist (List.take_sublist k ms))
      (fun m' hm' => H2 m' (List.take_subset k ms hm'))
      (fun a ha b hb => H6 a (List.take_subset k ms ha) b (List.take_subset k ms hb))
      m hm
  · intro m hm
    rw [filePaths, hfiles]
    exact chainMoves_untouched m.source (ms.take k) fs.files
      (H2 m (List.drop_subset k ms hm))
      (fun m' hm' => hcross m' hm' m hm)
  · intro fm fms i s fs2 hflag
    simp [execFolders, hflag]
  · intro mv mvs i s fs2 hflag
    simp [execFiles, hflag]

/-- C4 witness: ten planned moves with cancellation first observed after
four completed; the batch reports moved = 4 and cancelled = true, and
the remaining six sources stay in place. -/
theorem claim_C4_cancellation_witness :
    (executeMoves
      { cancelFrom := some 4, access := fun _ => none, outcome := fun _ => .ok,
        folderOutcome := fun _ => .ok, mkdirTime := ⟨2020, 1, 0⟩, rootLen := 1 }
      { files := [plainFile "f0.txt", plainFile "f1.txt", plainFile "f2.txt",
          plainFile "f3.txt", plainFile "f4.txt", plainFile "f5.txt", plainFile "f6.txt",
          plainFile "f7.txt", plainFile "f8.txt", plainFile "f9.txt"], dirs := [] }
      [plainMove "f0.txt", plainMove "f1.txt", plainMove "f2.txt", plainMove "f3.txt",
        plainMove "f4.txt", plainMove "f5.txt", plainMove "f6.txt", plainMove "f7.txt",
        plainMove "f8.txt", plainMove "f9.txt"] []).1.moved = 4 ∧
    (executeMoves
      { cancelFrom := some 4, access := fun _ => none, outcome := fun _ => .ok,
        folderOutcome := fun _ => .ok, mkdirTime := ⟨2020, 1, 0⟩, rootLen := 1 }
      { files := [plainFile "f0.txt", plainFile "f1.txt", plainFile "f2.txt",
          plainFile "f3.txt", plainFile "f4.txt", plainFile "f5.txt", plainFile "f6.txt",
          plainFile "f7.txt", plainFile "f8.txt", plainFile "f9.txt"], dirs := [] }
      [plainMove "f0.txt", plainMove "f1.txt", plainMove "f2.txt", plainMove "f3.txt",
        plainMove "f4.txt", plainMove "f5.txt", plainMove "f6.txt", plainMove "f7.txt",
        plainMove "f8.txt", plainMove "f9.txt"] []).1.cancelled = true := by
  have h := claim_C4_cancellation
    { cancelFrom := some 4, access := fun _ => none, outcome := fun _ => .ok,
      folderOutcome := fun _ => .ok, mkdirTime := ⟨2020, 1, 0⟩, rootLen := 1 }
    { files := [plainFile "f0.txt", plainFile "f1.txt", plainFile "f2.txt",
        plainFile "f3.txt", plainFile "f4.txt", plainFile "f5.txt", plainFile "f6.txt",
        plainFile "f7.txt", plainFile "f8.txt", plainFile "f9.txt"], dirs := [] }
    [plainMove "f0.txt", plainMove "f1.txt", plainMove "f2.txt", plainMove "f3.txt",
      plainMove "f4.txt", plainMove "f5.txt", plainMove "f6.txt", plainMove "f7.txt",
      plainMove "f8.txt", plainMove "f9.txt"] 4 2
    rfl (by decide) (fun j _ => rfl) (fun j _ => rfl)
    (by decide) (by decide) (by decide) (by decide) (by decide) (by decide) (by decide)
  exact ⟨h.1, h.2.1⟩

/-- **C1** (counterexample to the literal claim).  A batch consisting of one
folder move relocates the file `d/a.txt` to `2020/01 - January/d/a.txt` and
is saved to a journal (`_organize_worker` saves whenever `move_log` or
`folder_move_log` is non-empty), but `save_backup` receives only
`result.move_log`, which is empty, so the journal's `moves` list is empty
and `execute_restore` moves nothing: the file relocated via the folder move
is not returned to its original path. -/
theorem claim_C1_counterexample :
    (executeMoves cexEnv cexFS [] [cexFolderMove]).1.folders_moved = 1 ∧
    (executeMoves cexEnv cexFS [] [cexFolderMove]).1.folder_move_log ≠ [] ∧
    organizeWorkerBackup "2020" "root" SortMode.BY_DATE
        (executeMoves cexEnv cexFS [] [cexFolderMove]).1 [] =
      some (saveBackup "2020" "root"
        (executeMoves cexEnv cexFS [] [cexFolderMove]).1.move_log
        SortMode.BY_DATE.value []) ∧
    (saveBackup "2020" "root"
        (executeMoves cexEnv cexFS [] [cexFolderMove]).1.move_log
        SortMode.BY_DATE.value []).moves = [] ∧
    filePaths (executeRestore restoreEnvOk
        (saveBackup "2020" "root"
          (executeMoves cexEnv cexFS [] [cexFolderMove]).1.move_log
          SortMode.BY_DATE.value [])
        (executeMoves cexEnv cexFS [] [cexFolderMove]).2).2 =
      [["2020", "01 - January", "d", "a.txt"]] ∧
    ["d", "a.txt"] ∉ filePaths (executeRestore restoreEnvOk
        (saveBackup "2020" "root"
          (executeMoves cexEnv cexFS [] [cexFolderMove]).1.move_log
          SortMode.BY_DATE.value [])
        (executeMoves cexEnv cexFS [] [cexFolderMove]).2).2 := by
  decide

/-- **C1** (amended round trip).  For every batch run by `execute_moves` —
folder moves first, file moves after, with any mix of per-item skips,
errors and a possible mid-batch cancellation — whose result is saved by
`_organize_worker`, the journal's `moves` list holds exactly the
(source, destination) pairs of the successfully-moved files, and
`execute_restore` run cleanly on that journal moves every one of those
files back to its original path: the restored tree's file entries equal
those at the start of the file phase exactly (files relocated only by
folder moves stay relocated — the parenthetical dropped from the literal
claim).  The well-formedness hypotheses (pairwise-distinct sources and
destinations, sources present and destinations fresh after the folder
phase, length checks passing, no source a prefix of a planned parent
directory) state that the batch is a plan over the tree the file phase
sees, with no external interference. -/
theorem claim_C1_roundtrip_amended
    (env : ExecEnv) (renv : RestoreEnv) (fs : FS)
    (fileMoves : List FileMove) (folderMoves : List FolderMove) (k L : Nat)
    (t sf : String) (mode : SortMode) (sk : List SkippedFile)
    (hk : k ≤ fileMoves.length)
    (hflagF : ∀ j, j < k → flagAt env.cancelFrom (folderMoves.length + j) = false)
    (hflagT : k < fileMoves.length →
      flagAt env.cancelFrom (folderMoves.length + k) = true)
    (hrcancel : renv.cancelFrom = none)
    (hrok : ∀ j, renv.outcome j = MoveOutcome.ok)
    (H1 : fileMoves.Pairwise (fun a b => a.source ≠ b.source))
    (H2 : ∀ m ∈ fileMoves, m.source ∈ filePaths (execFolders env fs folderMoves 0 0).2)
    (H3 : ∀ m ∈ fileMoves,
      m.destination ∉ filePaths (execFolders env fs folderMoves 0 0).2 ∧
        m.destination ∉ dirPaths (execFolders env fs folderMoves 0 0).2)
    (H4 : fileMoves.Pairwise (fun a b => a.destination ≠ b.destination))
    (H5 : ∀ m ∈ fileMoves, m.destination.length = L)
    (H6 : ∀ m ∈ fileMoves, ∀ mb ∈ fileMoves, m.destination ≠ mb.source)
    (H8 : ∀ m ∈ fileMoves, checkPathLengthParts env.rootLen m.destination = true)
    (HsrcD : ∀ m ∈ fileMoves,
      m.source ∉ dirPaths (execFolders env fs folderMoves 0 0).2)
    (Hnd : ∀ m ∈ fileMoves, ∀ mb ∈ fileMoves, ¬ m.source <+: mb.destination.dropLast)
    (HndS : ∀ m ∈ fileMoves, ∀ mb ∈ fileMoves, ¬ m.source <+: mb.source.dropLast) :
    ∀ backup, organizeWorkerBackup t sf mode
        (executeMoves env fs fileMoves folderMoves).1 sk = some backup →
      backup.moves = (selectedMoves env (fileMoves.take k) 0).map
          (fun m => (m.source, m.destination)) ∧
      backup.file_count = (selectedMoves env (fileMoves.take k) 0).length ∧
      (executeRestore renv backup
          (executeMoves env fs fileMoves folderMoves).2).1.moved =
        (selectedMoves env (fileMoves.take k) 0).length ∧
      (executeRestore renv backup
          (executeMoves env fs fileMoves folderMoves).2).2.files =
        (execFolders env fs folderMoves 0 0).2.files := by
  obtain ⟨hml, hfiles1, -⟩ :=
    execFiles_partial_run env L fileMoves (execFolders env fs folderMoves 0 0).2 0
      folderMoves.length k hk hflagF hflagT H1 H2 H3 H4 H5 H6 H8
  have hmv : (executeMoves env fs fileMoves folderMoves).1.move_log =
      (selectedMoves env (fileMoves.take k) 0).map
        (fun m => (m.source, m.destination)) := by
    rw [executeMoves_move_log, hml]
  have hsub : List.Sublist (selectedMoves env (fileMoves.take k) 0) fileMoves :=
    List.Sublist.trans (selectedMoves_sublist env (fileMoves.take k) 0)
      (List.take_sublist k fileMoves)
  obtain ⟨nd, hnd2, hndprop⟩ :=
    execFiles_dirs_append env fileMoves (execFolders env fs folderMoves 0 0).2 0
      folderMoves.length
  have hfs2dirs : (executeMoves env fs fileMoves folderMoves).2.dirs =
      (execFolders env fs folderMoves 0 0).2.dirs ++ nd := by
    rw [executeMoves_snd]
    exact hnd2
  have hwfD : ∀ m ∈ selectedMoves env (fileMoves.take k) 0,
      m.source ∉ dirPaths (executeMoves env fs fileMoves folderMoves).2 := by
    intro m hm hmem
    rw [dirPaths, hfs2dirs, List.map_append] at hmem
    rcases List.mem_append.mp hmem with h2 | h2
    · exact HsrcD m (hsub.subset hm) h2
    · obtain ⟨d, hd, hdq⟩ := List.mem_map.mp h2
      obtain ⟨-, mb, hmb, hpre⟩ := hndprop d hd
      exact Hnd m (hsub.subset hm) mb hmb (hdq ▸ hpre)
  have hfiles2 : (executeMoves env fs fileMoves folderMoves).2.files =
      (execFolders env fs folderMoves 0 0).2.files.map
        (chainUpd (selectedMoves env (fileMoves.take k) 0)) := by
    rw [executeMoves_snd, hfiles1, chainMoves_eq_map]
  obtain ⟨hres2, hfiles3⟩ :=
    execRestore_clean_run renv (execFolders env fs folderMoves 0 0).2.files
      (dirPaths (executeMoves env fs fileMoves folderMoves).2)
      (selectedMoves env (fileMoves.take k) 0) hrcancel hrok
      (H1.sublist hsub) (H4.sublist hsub)
      (fun a ha b hb => H6 a (hsub.subset ha) b (hsub.subset hb))
      (fun m hm => by simpa [filePaths] using H2 m (hsub.subset hm))
      (fun m hm => by simpa [filePaths] using (H3 m (hsub.subset hm)).1)
      hwfD
      (fun m hm mb hmb => Hnd m (hsub.subset hm) mb (hsub.subset hmb))
      (fun m hm mb hmb => HndS m (hsub.subset hm) mb (hsub.subset hmb))
      (selectedMoves env (fileMoves.take k) 0)
      (executeMoves env fs fileMoves folderMoves).2 0
      (List.Sublist.refl _) hfiles2 (fun q hq => Or.inl hq)
  intro backup hsome
  unfold organizeWorkerBackup at hsome
  split at hsome
  · have hb : backup = saveBackup t sf
        (executeMoves env fs fileMoves folderMoves).1.move_log mode.value sk :=
      (Option.some.inj hsome).symm
    have hbm : backup.moves = (selectedMoves env (fileMoves.take k) 0).map
        (fun m => (m.source, m.destination)) := by
      rw [hb]
      show (executeMoves env fs fileMoves folderMoves).1.move_log = _
      exact hmv
    have hrest : executeRestore renv backup
        (executeMoves env fs fileMoves folderMoves).2 =
        execRestore renv (executeMoves env fs fileMoves folderMoves).2
          ((selectedMoves env (fileMoves.take k) 0).map
            (fun m => (m.source, m.destination))) 0 := by
      unfold executeRestore
      rw [hbm]
    refine ⟨hbm, ?_, ?_, ?_⟩
    · rw [hb]
      show (executeMoves env fs fileMoves folderMoves).1.move_log.length = _
      rw [hmv, List.length_map]
    · rw [hrest, hres2]
    · rw [hrest]
      exact hfiles3
  · cases hsome

/-- Closed instance of the amended C1 round trip: a mixed batch on a tree
with a folder and two loose files — the folder move runs first, the first
file move succeeds, the second is skipped as in-use — after which the
journal holds exactly the one successful pair and restoring it returns the
file set to its post-folder-phase state. -/
theorem claim_C1_roundtrip_amended_witness :
    (saveBackup "2020" "root" (executeMoves partialEnv mixedFS
        [plainMove "b.txt", plainMove "c.txt"] [cexFolderMove]).1.move_log
        SortMode.BY_TYPE.value []).moves =
      (selectedMoves partialEnv ([plainMove "b.txt", plainMove "c.txt"].take 2) 0).map
        (fun m => (m.source, m.destination)) ∧
    (saveBackup "2020" "root" (executeMoves partialEnv mixedFS
        [plainMove "b.txt", plainMove "c.txt"] [cexFolderMove]).1.move_log
        SortMode.BY_TYPE.value []).file_count =
      (selectedMoves partialEnv ([plainMove "b.txt", plainMove "c.txt"].take 2) 0).length ∧
    (executeRestore restoreEnvOk
        (saveBackup "2020" "root" (executeMoves partialEnv mixedFS
          [plainMove "b.txt", plainMove "c.txt"] [cexFolderMove]).1.move_log
          SortMode.BY_TYPE.value [])
        (executeMoves partialEnv mixedFS
          [plainMove "b.txt", plainMove "c.txt"] [cexFolderMove]).2).1.moved =
      (selectedMoves partialEnv ([plainMove "b.txt", plainMove "c.txt"].take 2) 0).length ∧
    (executeRestore restoreEnvOk
        (saveBackup "2020" "root" (executeMoves partialEnv mixedFS
          [plainMove "b.txt", plainMove "c.txt"] [cexFolderMove]).1.move_log
          SortMode.BY_TYPE.value [])
        (executeMoves partialEnv mixedFS
          [plainMove "b.txt", plainMove "c.txt"] [cexFolderMove]).2).2.files =
      (execFolders partialEnv mixedFS [cexFolderMove] 0 0).2.files :=
  claim_C1_roundtrip_amended partialEnv restoreEnvOk mixedFS
    [plainMove "b.txt", plainMove "c.txt"] [cexFolderMove] 2 2
    "2020" "root" SortMode.BY_TYPE []
    (by decide) (fun j hj => rfl) (fun h => absurd h (by decide))
    rfl (fun j => rfl)
    (by decide) (by decide) (by decide) (by decide) (by decide) (by decide)
    (by decide) (by decide) (by decide) (by decide)
    (saveBackup "2020" "root" (executeMoves partialEnv mixedFS
      [plainMove "b.txt", plainMove "c.txt"] [cexFolderMove]).1.move_log
      SortMode.BY_TYPE.value []) rfl

theorem scanCandidates_sublist (fs : FS) (b : Bool) :
    List.Sublist (scanCandidates fs b) fs.files := by
  unfold scanCandidates
  split
  · exact List.Sublist.refl _
  · exact List.filter_sublist fs.files

theorem scanCandidates_mem_of (fs fsb : FS) (b : Bool) (e : FileEntry)
    (he : e ∈ scanCandidates fsb b) (hmem : e ∈ fs.files) :
    e ∈ scanCandidates fs b := by
  cases b
  · simp only [scanCandidates, Bool.false_eq_true, if_false] at he ⊢
    exact List.mem_filter.mpr ⟨hmem, (List.mem_filter.mp he).2⟩
  · simpa [scanCandidates] using hmem

theorem scanFiles_planned_nil (cfg : ScanCfg) (fs : FS)
    (h : ∀ e ∈ scanCandidates fs
        (scanStrategy cfg (decide (0 < (rootFolders fs).length))).1,
      ∀ m, ¬ scanStep cfg e = .planned m) :
    (scanFiles cfg fs).1 = [] := by
  unfold scanFiles
  dsimp only []
  rw [List.filterMap_eq_nil_iff]
  intro e he
  rcases hstep : scanStep cfg e with m | s | _
  · exact absurd hstep (h e he m)
  · rfl
  · rfl

theorem scan_planned_of_step (cfg : ScanCfg) (fs : FS) (e : FileEntry) (m : FileMove)
    (he : e ∈ scanCandidates fs
      (scanStrategy cfg (decide (0 < (rootFolders fs).length))).1)
    (hstep : scanStep cfg e = .planned m) :
    m ∈ (scanFiles cfg fs).1 := by
  unfold scanFiles
  dsimp only []
  exact List.mem_filterMap.mpr ⟨e, he, by rw [hstep]⟩

theorem scan_date_ok (ny : Nat) (c mt : Timestamp) (hny : ny ≤ 9998)
    (hm : 1 ≤ c.month ∧ c.month ≤ 12 ∧ 1 ≤ mt.month ∧ mt.month ≤ 12) :
    getFileDate ny c mt = none ∨
      ∃ d, getFileDate ny c mt = some d ∧ 1980 ≤ d.year ∧
        d.year ≤ 9999 ∧ 1 ≤ d.month ∧ d.month ≤ 12 := by
  rcases hgd : getFileDate ny c mt with _ | d
  · exact Or.inl rfl
  · obtain ⟨h1, h2, h3⟩ := getFileDate_bounds ny c mt d hgd
    refine Or.inr ⟨d, rfl, h1, by omega, ?_, ?_⟩
    · rcases h3 with rfl | rfl
      · exact hm.1
      · exact hm.2.2.1
    · rcases h3 with rfl | rfl
      · exact hm.2.1
      · exact hm.2.2.2

theorem scan_planned_pairwise_sources (cfg : ScanCfg) (fs : FS)
    (hnodup : (filePaths fs).Nodup) :
    ((scanFiles cfg fs).1).Pairwise (fun a b => a.source ≠ b.source) := by
  have hpar : fs.files.Pairwise (fun a b => a.parts ≠ b.parts) := by
    unfold filePaths partsOf at hnodup
    exact List.pairwise_map.mp hnodup
  have hcand := hpar.sublist (scanCandidates_sublist fs
    (scanStrategy cfg (decide (0 < (rootFolders fs).length))).1)
  unfold scanFiles
  dsimp only []
  refine List.pairwise_filterMap.mpr (List.Pairwise.imp ?_ hcand)
  intro a b hab x hx y hy
  rcases hsa : scanStep cfg a with ma | sa | _ <;> rw [hsa] at hx
  · rcases hsb : scanStep cfg b with mb | sb | _ <;> rw [hsb] at hy
    · have hx2 : ma = x := by simpa using hx
      have hy2 : mb = y := by simpa using hy
      rw [← hx2, ← hy2,
        (scanStep_planned_inv cfg a ma hsa).1, (scanStep_planned_inv cfg b mb hsb).1]
      exact hab
    · simp at hy
    · simp at hy
  · simp at hx
  · simp at hx

/-- **C3** (counterexample to the literal claim).  `scan_files` only reads
the tree and plans moves; it relocates nothing.  With no external change
between two runs the second run scans the identical tree, so it returns the
same planned-move list as the first — here a non-empty one — not an empty
list.  -/
theorem claim_C3_counterexample :
    (scanFiles c3Cfg roundtripFS).1 = (scanFiles c3Cfg roundtripFS).1 ∧
    (scanFiles c3Cfg roundtripFS).1 ≠ [] := ⟨rfl, by decide⟩

/-- **C3** (amended idempotence).  Scan-execute-scan is idempotent: if the
first scan's planned file moves are executed cleanly (no cancellation, no
accessibility skip, every `shutil.move` succeeding) on a tree with distinct
file paths, well-formed stat months, fresh pairwise-distinct destinations
and no planned folder moves, then a second scan of the resulting tree plans
nothing: moved files now sit in their organized location and are excluded
by `is_in_organized_structure`, and the directories the run created are
organized-looking, so the traversal strategy is unchanged. -/
theorem claim_C3_idempotence_amended
    (cfg : ScanCfg) (env : ExecEnv) (fs : FS)
    (hnodup : (filePaths fs).Nodup)
    (hmonths : ∀ e ∈ fs.files, 1 ≤ e.ctime.month ∧ e.ctime.month ≤ 12 ∧
      1 ≤ e.mtime.month ∧ e.mtime.month ≤ 12)
    (hny : cfg.nowYear ≤ 9998)
    (hroot : env.rootLen = cfg.rootLen)
    (hecancel : env.cancelFrom = none)
    (heaccess : ∀ j, env.access j = none)
    (heok : ∀ j, env.outcome j = MoveOutcome.ok)
    (hnofm : (scanFiles cfg fs).2.2.1 = [])
    (Hdd : ((scanFiles cfg fs).1).Pairwise (fun a b => a.destination ≠ b.destination))
    (Hnocol : ∀ m ∈ (scanFiles cfg fs).1,
      m.destination ∉ filePaths fs ∧ m.destination ∉ dirPaths fs) :
    (scanFiles cfg (executeMoves env fs (scanFiles cfg fs).1 []).2).1 = [] := by
  have hPl : ∀ m ∈ (scanFiles cfg fs).1, ∃ e, e ∈ fs.files ∧
      scanStep cfg e = .planned m := by
    intro m hm
    obtain ⟨e, he, hstep⟩ := scan_planned_mem cfg fs m hm
    exact ⟨e, scanCandidates_subset fs _ e he, hstep⟩
  have hDest : ∀ m ∈ (scanFiles cfg fs).1, ∃ dte nm,
      m.destination = destinationParts cfg.mode dte nm ∧
      (dte = none ∨ ∃ d, dte = some d ∧ 1980 ≤ d.year ∧ d.year ≤ 9999 ∧
        1 ≤ d.month ∧ d.month ≤ 12) := by
    intro m hm
    obtain ⟨e, he, hstep⟩ := hPl m hm
    obtain ⟨-, hd, -⟩ := scanStep_planned_inv cfg e m hstep
    exact ⟨getFileDate cfg.nowYear e.ctime e.mtime, e.name, hd,
      scan_date_ok cfg.nowYear e.ctime e.mtime hny (hmonths e he)⟩
  have hOrg : ∀ m ∈ (scanFiles cfg fs).1,
      isInOrganizedStructure cfg.mode m.destination = true := by
    intro m hm
    obtain ⟨dte, nm, hd, hdte⟩ := hDest m hm
    rw [hd]
    exact destinationParts_organized cfg.mode dte nm hdte
  have hSrcN : ∀ m ∈ (scanFiles cfg fs).1,
      isInOrganizedStructure cfg.mode m.source = false := by
    intro m hm
    obtain ⟨e, he, hstep⟩ := hPl m hm
    obtain ⟨hs, -, hno, -⟩ := scanStep_planned_inv cfg e m hstep
    rw [hs]
    exact hno
  have H1 := scan_planned_pairwise_sources cfg fs hnodup
  have H2 : ∀ m ∈ (scanFiles cfg fs).1, m.source ∈ filePaths fs := by
    intro m hm
    obtain ⟨e, he, hstep⟩ := hPl m hm
    rw [(scanStep_planned_inv cfg e m hstep).1]
    exact List.mem_map.mpr ⟨e, he, rfl⟩
  have H5 : ∀ m ∈ (scanFiles cfg fs).1, m.destination.length = modeLen cfg.mode := by
    intro m hm
    obtain ⟨dte, nm, hd, -⟩ := hDest m hm
    rw [hd]
    exact destinationParts_length cfg.mode dte nm
  have H6 : ∀ a ∈ (scanFiles cfg fs).1, ∀ b ∈ (scanFiles cfg fs).1,
      a.destination ≠ b.source := by
    intro a ha b hb hc
    have h1 := hOrg a ha
    rw [hc, hSrcN b hb] at h1
    cases h1
  have H8 : ∀ m ∈ (scanFiles cfg fs).1,
      checkPathLengthParts env.rootLen m.destination = true := by
    intro m hm
    obtain ⟨e, he, hstep⟩ := hPl m hm
    rw [hroot]
    exact (scanStep_planned_inv cfg e m hstep).2.2.2.2.1
  obtain ⟨-, hfiles1, -⟩ :=
    execFiles_clean_run env (modeLen cfg.mode) (scanFiles cfg fs).1 fs 0 0
      (scanFiles cfg fs).1.length (le_refl _)
      (fun j _ => by simp [flagAt, hecancel])
      (fun h => absurd h (lt_irrefl _))
      (fun j _ => heaccess _) (fun j _ => heok _)
      H1 H2 Hnocol Hdd H5 H6 H8
  have hfiles2 : (executeMoves env fs (scanFiles cfg fs).1 []).2.files =
      fs.files.map (chainUpd (scanFiles cfg fs).1) := by
    rw [executeMoves_no_folders, hfiles1, List.take_length, chainMoves_eq_map]
  obtain ⟨nd, hnd2, hndprop⟩ := execFiles_dirs_append env (scanFiles cfg fs).1 fs 0 0
  have hdirs2 : (executeMoves env fs (scanFiles cfg fs).1 []).2.dirs =
      fs.dirs ++ nd := by
    rw [executeMoves_no_folders]
    exact hnd2
  have hRF : rootFolders (executeMoves env fs (scanFiles cfg fs).1 []).2 =
      rootFolders fs := by
    unfold rootFolders
    rw [hdirs2, List.filter_append]
    have hnil : nd.filter
        (fun d => decide (d.parts.length = 1) && !isOrganizedFolderName d.name) = [] := by
      rw [List.filter_eq_nil_iff]
      intro d hd hcontra
      obtain ⟨hlen1, m, hm, hpre⟩ := hndprop d hd
      have hsp : d.parts.length = 1 ∧ isOrganizedFolderName d.name = false := by
        simpa using hcontra
      obtain ⟨h1, h2⟩ := hsp
      obtain ⟨x, hx⟩ := List.length_eq_one.mp h1
      have hnm : d.name = x := by
        rw [DirEntry.name, hx]
        rfl
      obtain ⟨dte, nm, hdest, hdte⟩ := hDest m hm
      have horg : isOrganizedFolderName x = true := by
        apply destinationParts_head_organized cfg.mode dte nm x hdte
        rw [← hdest, ← hx]
        exact hpre
      rw [hnm] at h2
      rw [h2] at horg
      cases horg
    rw [hnil, List.append_nil]
  apply scanFiles_planned_nil
  rw [hRF]
  intro ep hep m0 hstepc
  have hepmem : ep ∈ (executeMoves env fs (scanFiles cfg fs).1 []).2.files :=
    scanCandidates_subset _ _ ep hep
  rw [hfiles2] at hepmem
  obtain ⟨e, he, heq⟩ := List.mem_map.mp hepmem
  by_cases hmv : ∃ m ∈ (scanFiles cfg fs).1, e.parts = m.source
  · obtain ⟨m, hm, hepp⟩ := hmv
    have hupd := chainUpd_moved (scanFiles cfg fs).1 e m hm hepp H1 H6
    have hp : ep.parts = m.destination := by
      rw [← heq, hupd]
    have horg : isInOrganizedStructure cfg.mode ep.parts = true := by
      rw [hp]
      exact hOrg m hm
    unfold scanStep at hstepc
    rw [if_pos horg] at hstepc
    cases hstepc
  · push_neg at hmv
    have hupd := chainUpd_untouched (scanFiles cfg fs).1 e
      (fun m hm hc => hmv m hm hc.symm)
    have heq2 : ep = e := by
      rw [← heq, hupd]
    subst heq2
    have hecand : ep ∈ scanCandidates fs
        (scanStrategy cfg (decide (0 < (rootFolders fs).length))).1 :=
      scanCandidates_mem_of fs _ _ ep hep he
    have hm0 : m0 ∈ (scanFiles cfg fs).1 :=
      scan_planned_of_step cfg fs ep m0 hecand hstepc
    exact hmv m0 hm0 (scanStep_planned_inv cfg ep m0 hstepc).1.symm

/-- Closed instance of the amended C3 idempotence: scanning the one-file
tree, executing the single planned move cleanly, then scanning again plans
nothing. -/
theorem claim_C3_idempotence_amended_witness :
    (scanFiles c3Cfg (executeMoves cexEnv roundtripFS
      (scanFiles c3Cfg roundtripFS).1 []).2).1 = [] :=
  claim_C3_idempotence_amended c3Cfg cexEnv roundtripFS (by decide) (by decide)
    (by decide) rfl rfl (fun _ => rfl) (fun _ => rfl) (by decide) (by decide) (by decide)

end FolderOrganizer
